import Mathlib

/-!
Verification development for the code-analysis pipeline of this repository
(`parser.js`: the `CodeParser` statement classifier; `analyser.js`: the
`CodeAnalyzer` metrics/heuristics engine and its cache; the unnamed flowchart
file: the `FlowchartGenerator` control-flow-graph builder).

Strings are modelled as `List Char` (`Str`); each JavaScript regular
expression used by the source is translated into an explicit matcher whose
behaviour coincides with the regex's leftmost/greedy/lazy backtracking
semantics on the shape of pattern actually used.  JavaScript `\s` is modelled
by the ASCII whitespace class (the lines being matched contain no exotic
Unicode spacing in any behaviour the theorems rely on), `\w` by
`[A-Za-z0-9_]`, and `toLowerCase` by ASCII lowercasing.
-/

abbrev Str := List Char

/-- Character class of the JavaScript regex token `\s` (ASCII part). -/
def isSpaceChar (c : Char) : Bool :=
  c = ' ' || c = '\t' || c = '\n' || c = '\r' || c = '\x0b' || c = '\x0c'

/-- Character class of the JavaScript regex token `\w`: `[A-Za-z0-9_]`. -/
def isWordChar (c : Char) : Bool :=
  ('a' ≤ c && c ≤ 'z') || ('A' ≤ c && c ≤ 'Z') || ('0' ≤ c && c ≤ '9') || c = '_'

/-- Maximal munch of `\s*` at the head of the input. -/
def dropWs (l : Str) : Str := l.dropWhile isSpaceChar

/-- Maximal run of `\w` characters at the head of the input (`\w*`). -/
def takeWord (l : Str) : Str := l.takeWhile isWordChar

/-- Removal of the trailing whitespace run (the other half of `trim`). -/
def trimEnd : Str → Str
  | [] => []
  | c :: cs =>
    match trimEnd cs with
    | [] => if isSpaceChar c then [] else [c]
    | r => c :: r

/-- Model of JavaScript `String.prototype.trim`. -/
def trimStr (l : Str) : Str := trimEnd (dropWs l)

/-- Whether `pat` is a prefix of `l` (a literal regex fragment match). -/
def seqStartsWith : Str → Str → Bool
  | [], _ => true
  | _ :: _, [] => false
  | p :: ps, c :: cs => p = c && seqStartsWith ps cs

/-- Whether `pat` occurs contiguously anywhere in `l` (JavaScript `includes`). -/
def seqContains (pat : Str) : Str → Bool
  | [] => seqStartsWith pat []
  | c :: cs => seqStartsWith pat (c :: cs) || seqContains pat cs

/-- ASCII lowercasing, the model of `toLowerCase` used by the source's
case-insensitive substring checks (their needles are pure ASCII). -/
def lowerStr (l : Str) : Str := l.map Char.toLower

/-- Whether the head of `l` is the character `c`. -/
def headIs (c : Char) (l : Str) : Bool :=
  match l with
  | x :: _ => x = c
  | [] => false

/-- Model of JavaScript `split(sep)`: empty pieces are preserved and the
empty input yields one empty piece. -/
def splitOnChar (sep : Char) : Str → List Str
  | [] => [[]]
  | c :: cs =>
    match splitOnChar sep cs with
    | [] => [[]]
    | h :: t => if c = sep then [] :: h :: t else (c :: h) :: t

/-- Splits at the first character satisfying `p`: `some (before, after)`,
with the splitting character dropped, or `none` when no such character. -/
def splitAtFirst (p : Char → Bool) : Str → Option (Str × Str)
  | [] => none
  | c :: cs =>
    if p c then some ([], cs)
    else (splitAtFirst p cs).map fun ab => (c :: ab.1, ab.2)

theorem splitAtFirst_snd_length (p : Char → Bool) :
    ∀ l a b, splitAtFirst p l = some (a, b) → b.length < l.length := by
  intro l
  induction l with
  | nil => intro a b h; simp [splitAtFirst] at h
  | cons c cs ih =>
    intro a b h
    by_cases hc : p c = true
    · simp [splitAtFirst, hc] at h
      simp [← h.2]
    · simp only [splitAtFirst, hc, Bool.false_eq_true, if_false, Option.map_eq_some'] at h
      obtain ⟨⟨x, y⟩, hxy, hx⟩ := h
      have hb : y = b := by
        have h2 := congrArg Prod.snd hx
        simpa using h2
      have hlen := ih x y hxy
      rw [hb] at hlen
      simp only [List.length_cons]
      omega

/-- Count of the non-overlapping occurrences of `&&` or `||` that the global
regex `/&&|\|\|/g` finds, scanning left to right. -/
def countOps : Str → Nat
  | [] => 0
  | [_] => 0
  | a :: b :: r =>
    if a = '&' && b = '&' then countOps r + 1
    else if a = '|' && b = '|' then countOps r + 1
    else countOps (b :: r)

/-- Decimal value of a run of digit characters (JavaScript `parseInt`). -/
def natOfDigits (l : Str) : Nat :=
  l.foldl (fun a c => a * 10 + (c.toNat - 48)) 0

/-! Pattern matchers.  Each definition below is the translation of one
regular expression from `getLanguagePatterns` / the extraction helpers of
`parser.js`; the regexes are anchored `^\s*…` unless noted, so the leading
`\s*` is a forced maximal munch (the following literal never starts with a
whitespace character). -/

/-- Matcher for `^\s*KW\s+(\w+)` (used with `let|const|var` and the typed
declaration keywords): returns the captured word. -/
def kwSpaceWord (kw : String) (l : Str) : Option Str :=
  let k := kw.data
  let l := dropWs l
  if seqStartsWith k l then
    match l.drop k.length with
    | c :: _ =>
      if isSpaceChar c then
        let w := takeWord (dropWs (l.drop k.length))
        if w = [] then none else some w
      else none
    | [] => none
  else none

/-- Matcher for `^\s*KW\s+(\w+)\s*\(` (used with `function` and `def`):
returns the captured function name. -/
def kwFuncName (kw : String) (l : Str) : Option Str :=
  let k := kw.data
  let l := dropWs l
  if seqStartsWith k l then
    match l.drop k.length with
    | c :: _ =>
      if isSpaceChar c then
        let r := dropWs (l.drop k.length)
        let w := takeWord r
        if w = [] then none
        else if headIs '(' (dropWs (r.drop w.length)) then some w else none
      else none
    | [] => none
  else none

/-- Matcher for `^\s*(\w+)\s*=`: returns the captured word.  This is both
the Python profile's `variable` rule and the JavaScript profile's
`assignment` rule. -/
def wordThenEq (l : Str) : Option Str :=
  let l := dropWs l
  let w := takeWord l
  if w = [] then none
  else if headIs '=' (dropWs (l.drop w.length)) then some w else none

/-- Matcher for the tail `\w+\s+(\w+)\s*\(` after an initial `\s*` munch
(the whole of the C++ `function` rule, and the suffix of the Java one):
returns the captured second word. -/
def wordSpaceWordParen (l : Str) : Option Str :=
  let l := dropWs l
  let w := takeWord l
  if w = [] then none
  else
    match l.drop w.length with
    | c :: _ =>
      if isSpaceChar c then
        let r := dropWs (l.drop w.length)
        let nm := takeWord r
        if nm = [] then none
        else if headIs '(' (dropWs (r.drop nm.length)) then some nm else none
      else none
    | [] => none

/-- Backtracking of the optional group in
`(static)?\s*\w+\s+(\w+)\s*\(`: the greedy option is tried first and the
group is skipped when the continuation fails. -/
def javaAfterMod (l : Str) : Option Str :=
  let l := dropWs l
  if seqStartsWith ("static").data l then
    match wordSpaceWordParen (l.drop 6) with
    | some nm => some nm
    | none => wordSpaceWordParen l
  else wordSpaceWordParen l

/-- The Java `function` rule
`^\s*(public|private|protected)?\s*(static)?\s*\w+\s+(\w+)\s*\(`, returning
`match[1] || match[3]` as `analyzeLine` reads it: the modifier when the
greedy path (modifier taken) succeeds, the second plain word otherwise.
At most one modifier alternative can match at the anchor position, so the
alternation reduces to a first-prefix test. -/
def javaFunctionName (l : Str) : Option Str :=
  let l := dropWs l
  let modKw : Option String :=
    if seqStartsWith ("public").data l then some "public"
    else if seqStartsWith ("private").data l then some "private"
    else if seqStartsWith ("protected").data l then some "protected"
    else none
  match modKw with
  | some kw =>
    match javaAfterMod (l.drop kw.data.length) with
    | some _ => some kw.data
    | none => javaAfterMod l
  | none => javaAfterMod l

/-- Test for `^\s*KW\s*\(` (the brace-syntax `if` / `for` / `while` rules). -/
def kwThenParen (kw : String) (l : Str) : Bool :=
  let l := dropWs l
  seqStartsWith kw.data l && headIs '(' (dropWs (l.drop kw.data.length))

/-- Test for `^\s*KW\s+` (the Python `if` / `for` / `while` rules). -/
def kwThenSpace (kw : String) (l : Str) : Bool :=
  let l := dropWs l
  seqStartsWith kw.data l &&
    match l.drop kw.data.length with
    | c :: _ => isSpaceChar c
    | [] => false

/-- Test for `^\s*KW\b` (the `return` rule): the keyword followed by a word
boundary. -/
def kwThenBoundary (kw : String) (l : Str) : Bool :=
  let l := dropWs l
  seqStartsWith kw.data l &&
    match l.drop kw.data.length with
    | c :: _ => !isWordChar c
    | [] => true

/-- The four language profiles of `getLanguagePatterns`. -/
inductive Profile where
  | javascript | python | java | cpp
deriving DecidableEq, Repr

/-- Lookup `patterns[language] || patterns.javascript`: an unknown language
falls back to the JavaScript profile. -/
def profileOf (language : String) : Profile :=
  if language = "javascript" then .javascript
  else if language = "python" then .python
  else if language = "java" then .java
  else if language = "cpp" then .cpp
  else .javascript

/-- The profile's `variable` rule: `some name` on a match (the name is
`match[2] || match[1]` exactly as `analyzeLine` extracts it). -/
def patVariableName : Profile → Str → Option Str
  | .javascript => fun l =>
      match kwSpaceWord "let" l with
      | some w => some w
      | none =>
        match kwSpaceWord "const" l with
        | some w => some w
        | none => kwSpaceWord "var" l
  | .python => wordThenEq
  | .java => fun l =>
      match kwSpaceWord "int" l with
      | some w => some w
      | none => match kwSpaceWord "float" l with
        | some w => some w
        | none => match kwSpaceWord "double" l with
          | some w => some w
          | none => match kwSpaceWord "String" l with
            | some w => some w
            | none => match kwSpaceWord "boolean" l with
              | some w => some w
              | none => kwSpaceWord "char" l
  | .cpp => fun l =>
      match kwSpaceWord "int" l with
      | some w => some w
      | none => match kwSpaceWord "float" l with
        | some w => some w
        | none => match kwSpaceWord "double" l with
          | some w => some w
          | none => match kwSpaceWord "string" l with
            | some w => some w
            | none => match kwSpaceWord "char" l with
              | some w => some w
              | none => kwSpaceWord "bool" l

/-- The profile's `function` rule, returning `match[1] || match[3]`. -/
def patFunctionName : Profile → Str → Option Str
  | .javascript => kwFuncName "function"
  | .python => kwFuncName "def"
  | .java => javaFunctionName
  | .cpp => wordSpaceWordParen

/-- The profile's `if` rule (a test only). -/
def patIfTest : Profile → Str → Bool
  | .python => kwThenSpace "if"
  | _ => kwThenParen "if"

/-- The profile's `for` rule (a test only). -/
def patForTest : Profile → Str → Bool
  | .python => kwThenSpace "for"
  | _ => kwThenParen "for"

/-- The profile's `while` rule (a test only). -/
def patWhileTest : Profile → Str → Bool
  | .python => kwThenSpace "while"
  | _ => kwThenParen "while"

/-- The profile's `return` rule: `^\s*return\b` in all four profiles. -/
def patReturnTest (l : Str) : Bool := kwThenBoundary "return" l

/-- Whether the profile's pattern table has an `assignment` entry: only the
JavaScript profile defines one. -/
def patHasAssignment : Profile → Bool
  | .javascript => true
  | _ => false

/-- The profile's `comment` rule: `^\s*(\/\/|\/\*)` for the brace syntaxes,
`^\s*#` for Python. -/
def patCommentTest : Profile → Str → Bool
  | .python => fun l => headIs '#' (dropWs l)
  | _ => fun l =>
      seqStartsWith ("//").data (dropWs l) || seqStartsWith ("/*").data (dropWs l)

/-! Extraction helpers of `parser.js`. -/

/-- The unanchored condition regex `/\((.*?)\)/`: the text between the first
opening parenthesis and the first closing parenthesis after it.  When the
first `(` has no `)` after it, no later `(` has one either, so the leftmost
match (if any) starts at the first `(`. -/
def parenCond (l : Str) : Option Str :=
  match splitAtFirst (· = '(') l with
  | none => none
  | some (_, rest) =>
    match splitAtFirst (· = ')') rest with
    | none => none
    | some (inner, _) => some inner

/-- The Python condition regex `/^\s*(if|while|elif)\s+(.*?):/`: keyword,
mandatory whitespace, then the (lazy) text up to the first colon.  At most
one keyword alternative can match at the anchor position. -/
def pyCond (l : Str) : Option Str :=
  let l := dropWs l
  let kw : Option String :=
    if seqStartsWith ("if").data l then some "if"
    else if seqStartsWith ("while").data l then some "while"
    else if seqStartsWith ("elif").data l then some "elif"
    else none
  match kw with
  | none => none
  | some k =>
    match l.drop k.data.length with
    | c :: _ =>
      if isSpaceChar c then
        match splitAtFirst (· = ':') (dropWs (l.drop k.data.length)) with
        | some (g, _) => some g
        | none => none
      else none
    | [] => none

/-- `extractCondition`: parenthesised style for the brace syntaxes, colon
style for Python, with the literal fallback `"condition"`. -/
def extractCondition (p : Profile) (l : Str) : Str :=
  match p with
  | .python =>
    match pyCond l with
    | some c => c
    | none => ("condition").data
  | _ =>
    match parenCond l with
    | some c => c
    | none => ("condition").data

/-- Finds the first `;` whose suffix still contains a `)`, returning the
text before it and the suffix after it.  This is the backtracking of the
middle lazy group of `for\s*\((.*?)\s*;\s*(.*?)\s*;\s*(.*?)\s*\)`: the
engine advances the second semicolon choice until a closing parenthesis can
still be found. -/
def splitSemiParen (l : Str) : Option (Str × Str) :=
  match h : splitAtFirst (· = ';') l with
  | none => none
  | some (a, b) =>
    if b.any (· = ')') then some (a, b)
    else
      match splitSemiParen b with
      | none => none
      | some ab => some (a ++ ';' :: ab.1, ab.2)
termination_by l.length
decreasing_by exact splitAtFirst_snd_length _ l a b h

/-- One attempt of the C-style loop body `\s*\(\s*(.*?)\s*;\s*(.*?)\s*;\s*(.*?)\s*\)`
at a fixed position (the text just after a literal `for`).  The first
semicolon choice never needs to backtrack: a later first-semicolon choice
only shrinks the candidates for the second one.  Groups come back
whitespace-trimmed exactly as the surrounding `\s*` fragments force. -/
def forBodyAt (r : Str) : Option (Str × Str × Str) :=
  let r := dropWs r
  match r with
  | '(' :: body =>
    match splitAtFirst (· = ';') body with
    | none => none
    | some (g1, rest1) =>
      match splitSemiParen rest1 with
      | none => none
      | some (g2, rest2) =>
        match splitAtFirst (· = ')') rest2 with
        | none => none
        | some (g3, _) => some (trimStr g1, trimStr g2, trimStr g3)
  | _ => none

/-- Leftmost-match scan of the unanchored
`/for\s*\(\s*(.*?)\s*;\s*(.*?)\s*;\s*(.*?)\s*\)/`: the engine advances the
start position one character at a time. -/
def scanForLoop : Str → Option (Str × Str × Str)
  | [] => none
  | c :: cs =>
    if seqStartsWith ("for").data (c :: cs) then
      match forBodyAt ((c :: cs).drop 3) with
      | some g => some g
      | none => scanForLoop cs
    else scanForLoop cs

/-- One attempt of the Python loop tail `\s+(\w+)\s+in\s+(.*?):` at a fixed
position (the text just after a literal `for`). -/
def pyForAt (r : Str) : Option (Str × Str) :=
  match r with
  | c :: _ =>
    if isSpaceChar c then
      let r1 := dropWs r
      let w := takeWord r1
      if w = [] then none
      else
        match r1.drop w.length with
        | c2 :: _ =>
          if isSpaceChar c2 then
            let r3 := dropWs (r1.drop w.length)
            if seqStartsWith ("in").data r3 then
              match r3.drop 2 with
              | c3 :: _ =>
                if isSpaceChar c3 then
                  match splitAtFirst (· = ':') (dropWs (r3.drop 2)) with
                  | some (g, _) => some (w, g)
                  | none => none
                else none
              | [] => none
            else none
          else none
        | [] => none
    else none
  | [] => none

/-- Leftmost-match scan of the unanchored `/for\s+(\w+)\s+in\s+(.*?):/`. -/
def scanPyFor : Str → Option (Str × Str)
  | [] => none
  | c :: cs =>
    if seqStartsWith ("for").data (c :: cs) then
      match pyForAt ((c :: cs).drop 3) with
      | some g => some g
      | none => scanPyFor cs
    else scanPyFor cs

/-- The leftmost `\w+` run of `match[1].match(/(\w+)/)`. -/
def firstWord : Str → Option Str
  | [] => none
  | c :: cs => if isWordChar c then some (takeWord (c :: cs)) else firstWord cs

/-- Result record of `extractLoopInfo`. -/
structure LoopInfo where
  variable_ : Str
  vars : List Str
  description : Str
deriving DecidableEq, Repr

/-- `extractLoopInfo`: the `variable in iterable` pair for Python, the
three-part header for the C-style syntaxes, and the `'i'` /
`"loop iteration"` fallback. -/
def extractLoopInfo (p : Profile) (l : Str) : LoopInfo :=
  match p with
  | .python =>
    match scanPyFor l with
    | some (w, it) =>
      { variable_ := w, vars := [w], description := w ++ (" in ").data ++ it }
    | none =>
      { variable_ := ("i").data, vars := [("i").data]
        description := ("loop iteration").data }
  | _ =>
    match scanForLoop l with
    | some (g1, g2, g3) =>
      let v := match firstWord g1 with
        | some w => w
        | none => ("i").data
      { variable_ := v, vars := [v]
        description := g1 ++ ("; ").data ++ g2 ++ ("; ").data ++ g3 }
    | none =>
      { variable_ := ("i").data, vars := [("i").data]
        description := ("loop iteration").data }

/-- Leftmost-match scan of the unanchored `/(\w+)\s*\((.*?)\)/` of
`extractFunctionCall`: a word run, optional whitespace, `(`, then the lazy
text up to the first `)`. -/
def scanCall : Str → Option (Str × Str)
  | [] => none
  | c :: cs =>
    if isWordChar c then
      let w := takeWord (c :: cs)
      match dropWs ((c :: cs).drop w.length) with
      | '(' :: r2 =>
        match splitAtFirst (· = ')') r2 with
        | some (args, _) => some (w, args)
        | none => scanCall cs
      | _ => scanCall cs
    else scanCall cs

/-- Result record of `extractFunctionCall`. -/
structure CallInfo where
  name : Str
  args : List Str
deriving DecidableEq, Repr

/-- `extractFunctionCall`: the scanned call match, guarded by the
profile's `function` and `if` rules not matching the line; an empty
argument text (falsy `match[2]`) yields no arguments, otherwise the text is
split on commas and each piece trimmed. -/
def extractFunctionCall (p : Profile) (l : Str) : Option CallInfo :=
  match scanCall l with
  | none => none
  | some (w, argText) =>
    if (patFunctionName p l).isSome || patIfTest p l then none
    else
      some { name := w
             args := if argText = [] then []
                     else (splitOnChar ',' argText).map trimStr }

/-! The statement classifier (`analyzeLine` / `parseCode`). -/

/-- The statement kinds that `analyzeLine` can emit, plus `commentStmt`:
no classifier branch produces it, but `analyser.js` filters on the type
string `'comment'` when counting code and comment lines, so the kind is
part of the data model. -/
inductive SKind where
  | varDecl | funcDef | ifStmt | forStmt | whileStmt | retStmt
  | callStmt | assignStmt | genericStmt | commentStmt
deriving DecidableEq, Repr

/-- One classified statement.  Field names follow the source object
(`variables` is spelled `vars`, `function` is spelled `funcName`, and the
`variable` field of assignment statements is spelled `varName`, because
those words are reserved in Lean).  Fields a branch does not set are
`none` / `[]`. -/
structure Statement where
  kind : SKind
  line : Nat
  indent : Nat
  code : Str
  name : Option Str := none
  condition : Option Str := none
  loopVar : Option Str := none
  varName : Option Str := none
  funcName : Option Str := none
  args : List Str := []
  vars : List Str := []
  description : Str := []
deriving DecidableEq, Repr

/-- The generic fallback branch of `analyzeLine` (kind string
`'statement'`): `Execute: ` plus the first 50 characters of the line. -/
def genericOf (line : Str) (ln il : Nat) : Statement :=
  { kind := .genericStmt, line := ln, indent := il, code := line
    description := ("Execute: ").data ++ line.take 50 ++
      (if 50 < line.length then ("...").data else []) }

/-- `analyzeLine(line, lineNumber, indentLevel)`: the fixed precedence
chain variable, function, if, for, while, return, call, assignment,
generic; every branch returns a statement, so classification is total. -/
def analyzeLine (p : Profile) (line : Str) (ln il : Nat) : Statement :=
  match patVariableName p line with
  | some nm =>
    { kind := .varDecl, line := ln, indent := il, code := line, name := some nm
      vars := [nm], description := ("Declare/assign variable: ").data ++ nm }
  | none =>
  match patFunctionName p line with
  | some nm =>
    { kind := .funcDef, line := ln, indent := il, code := line, name := some nm
      description := ("Define function: ").data ++ nm }
  | none =>
  if patIfTest p line then
    let c := extractCondition p line
    { kind := .ifStmt, line := ln, indent := il, code := line
      condition := some c, description := ("Conditional: ").data ++ c }
  else if patForTest p line then
    let info := extractLoopInfo p line
    { kind := .forStmt, line := ln, indent := il, code := line
      loopVar := some info.variable_, vars := info.vars
      description := ("For loop: ").data ++ info.description }
  else if patWhileTest p line then
    let c := extractCondition p line
    { kind := .whileStmt, line := ln, indent := il, code := line
      condition := some c, description := ("While loop: ").data ++ c }
  else if patReturnTest line then
    { kind := .retStmt, line := ln, indent := il, code := line
      description := ("Return from function").data }
  else
  match extractFunctionCall p line with
  | some fc =>
    { kind := .callStmt, line := ln, indent := il, code := line
      funcName := some fc.name, args := fc.args
      description := ("Call function: ").data ++ fc.name }
  | none =>
  if patHasAssignment p && (wordThenEq line).isSome
      && !(patVariableName p line).isSome then
    match wordThenEq line with
    | some v =>
      { kind := .assignStmt, line := ln, indent := il, code := line
        varName := some v, vars := [v]
        description := ("Assign to: ").data ++ v }
    | none => genericOf line ln il
  else genericOf line ln il

/-- Whether the statement kind is in the source's control-structure list
`['if', 'for', 'while', 'switch']` (no classifier branch emits `switch`,
so the representable members are the three loop/branch kinds). -/
def isControlKind (k : SKind) : Bool :=
  k == .ifStmt || k == .forStmt || k == .whileStmt

/-- The mutable `analysis` record that `parseCode` builds (the JavaScript
`Set`s are insertion-ordered lists without duplicates, as `Array.from`
later reads them in insertion order). -/
structure Analysis where
  language : String
  totalLines : Nat
  statements : List Statement
  variables_ : List Str
  functions : List Str
  controlStructures : List Statement
  complexity : Nat
deriving DecidableEq, Repr

/-- Insertion into a JavaScript `Set` projected to its iteration order. -/
def setAdd (s : List Str) (x : Str) : List Str :=
  if s.any (· = x) then s else s ++ [x]

/-- The per-line body of `parseCode`'s loop: blank and comment lines are
skipped, every other line is classified and the trackers updated. -/
def parseStep (p : Profile) (n : Nat) (l : Str) (acc : Analysis) : Analysis :=
  let trimmed := trimStr l
  if trimmed = [] then acc
  else if patCommentTest p trimmed then acc
  else
    let il := (l.takeWhile isSpaceChar).length / 2
    let s := analyzeLine p trimmed n il
    { acc with
      statements := acc.statements ++ [s]
      variables_ := s.vars.foldl setAdd acc.variables_
      functions := if s.kind = .funcDef then setAdd acc.functions (s.name.getD [])
                   else acc.functions
      controlStructures := if isControlKind s.kind
                           then acc.controlStructures ++ [s]
                           else acc.controlStructures
      complexity := if isControlKind s.kind then acc.complexity + 1
                    else acc.complexity }

/-- The loop of `parseCode` over the line list with its 1-based line
counter. -/
def parseGo (p : Profile) : List Str → Nat → Analysis → Analysis
  | [], _, acc => acc
  | l :: ls, n, acc => parseGo p ls (n + 1) (parseStep p n l acc)

/-- `parseCode(code)` of a `CodeParser` constructed for `language`. -/
def parseCode (language : String) (code : String) : Analysis :=
  let p := profileOf language
  let lines := splitOnChar '\n' code.data
  parseGo p lines 1
    { language := language, totalLines := lines.length, statements := []
      variables_ := [], functions := [], controlStructures := [], complexity := 0 }

/-! The analysis engine (`analyser.js`). -/

/-- One recorded memory change of an execution step. -/
structure MemChange where
  action : Str
  variable_ : Str
  mtype : Str
deriving DecidableEq, Repr

/-- One execution step (`createExecutionStep` output). -/
structure ExecStep where
  stepNumber : Nat
  kind : SKind
  description : Str
  explanation : Str
  code : Str
  line : Nat
  category : Str
  memoryChanges : List MemChange
  indent : Nat
  complexity : Nat
deriving DecidableEq, Repr

/-- `getStatementComplexity`: the per-kind weight map with default 1. -/
def getStatementComplexity (s : Statement) : Nat :=
  match s.kind with
  | .varDecl => 1
  | .assignStmt => 1
  | .ifStmt => 2
  | .forStmt => 3
  | .whileStmt => 3
  | .funcDef => 2
  | .callStmt => 1
  | .retStmt => 1
  | _ => 1

/-- Rendering of an optional string the way a JavaScript template literal
renders a possibly-undefined value. -/
def optText (o : Option Str) : Str :=
  match o with
  | some s => s
  | none => ("undefined").data

/-- `createExecutionStep(statement, stepNumber)`. -/
def createExecutionStep (s : Statement) (stepNumber : Nat) : ExecStep :=
  let q : Str := [' ', '\x27']
  let q2 : Str := ['\x27']
  let base : Str → Str → Str → List MemChange → ExecStep :=
    fun d e cat mc =>
      { stepNumber := stepNumber, kind := s.kind, description := d
        explanation := e, code := s.code, line := s.line, category := cat
        memoryChanges := mc, indent := s.indent
        complexity := getStatementComplexity s }
  match s.kind with
  | .varDecl =>
    base (("Declare variable").data ++ q ++ optText s.name ++ q2)
      (("Create a new variable named").data ++ q ++ optText s.name ++
        q2 ++ (" in memory").data)
      (("memory").data)
      [{ action := ("create").data, variable_ := optText s.name
         mtype := ("variable").data }]
  | .assignStmt =>
    base (("Assign value to").data ++ q ++ optText s.varName ++ q2)
      (("Update the value stored in variable").data ++ q ++
        optText s.varName ++ q2)
      (("memory").data)
      [{ action := ("update").data, variable_ := optText s.varName
         mtype := ("assignment").data }]
  | .funcDef =>
    base (("Define function").data ++ q ++ optText s.name ++ q2)
      (("Create a new function named").data ++ q ++ optText s.name ++
        q2 ++ (" that can be called later").data)
      (("definition").data)
      [{ action := ("create").data, variable_ := optText s.name
         mtype := ("function").data }]
  | .ifStmt =>
    base (("Check condition: ").data ++ optText s.condition)
      (("Evaluate the condition").data ++ q ++ optText s.condition ++
        q2 ++ (" and branch accordingly").data)
      (("control").data) []
  | .forStmt =>
    base (("Start for loop with").data ++ q ++ optText s.loopVar ++ q2)
      (("Initialize loop variable").data ++ q ++ optText s.loopVar ++
        q2 ++ (" and begin iteration").data)
      (("control").data)
      (match s.loopVar with
       | some v =>
         if v = [] then []
         else [{ action := ("create").data, variable_ := v
                 mtype := ("loop_variable").data }]
       | none => [])
  | .whileStmt =>
    base (("Start while loop: ").data ++ optText s.condition)
      (("Check condition").data ++ q ++ optText s.condition ++ q2 ++
        (" and repeat while true").data)
      (("control").data) []
  | .callStmt =>
    base (("Call function").data ++ q ++ optText s.funcName ++ q2)
      (("Execute the function").data ++ q ++ optText s.funcName ++ q2 ++
        (" with given parameters").data)
      (("execution").data) []
  | .retStmt =>
    base (("Return from function").data)
      (("Exit the current function and return control to caller").data)
      (("control").data) []
  | _ =>
    base (("Execute: ").data ++ s.code)
      (("Run the statement: ").data ++ s.code)
      (("execution").data) []

/-- `generateExecutionSteps`: one step per statement, numbered from 1. -/
def generateExecutionSteps (stmts : List Statement) : List ExecStep :=
  (List.range stmts.length).zip stmts |>.map fun p =>
    createExecutionStep p.2 (p.1 + 1)

/-- `calculateCyclomaticComplexity`: base 1, one per branching statement,
plus the `&&`/`||` occurrences of any statement that carries a condition
string containing one of them.  The membership test is against the source
list `['if', 'for', 'while', 'switch', 'case']`; the classifier can emit
only the first three.  This is the loop body. -/
def cyclomaticStep (acc : Nat) (s : Statement) : Nat :=
  let acc := if isControlKind s.kind then acc + 1 else acc
  match s.condition with
  | some c =>
    if seqContains ("&&").data c || seqContains ("||").data c
    then acc + countOps c else acc
  | none => acc

/-- The fold of `calculateCyclomaticComplexity` over the statements,
starting from the base complexity 1. -/
def calculateCyclomaticComplexity (stmts : List Statement) : Nat :=
  stmts.foldl cyclomaticStep 1

/-- `calculateMaxNesting`: the maximum `indent` over branching and function
statements, halved (the source assumes 2-space indentation a second
time). -/
def calculateMaxNesting (stmts : List Statement) : Nat :=
  (stmts.foldl
    (fun m s =>
      if isControlKind s.kind || s.kind == .funcDef then max m s.indent else m)
    0) / 2

/-- `countLinesOfCode`: statements whose type is not `'comment'`. -/
def countLinesOfCode (stmts : List Statement) : Nat :=
  (stmts.filter (fun s => s.kind ≠ .commentStmt)).length

/-- `calculateCodeCommentRatio`: code statements over comment statements,
defaulting to the code count when there are no comment statements. -/
def calculateCodeCommentRatio (stmts : List Statement) : Rat :=
  let codeLines := countLinesOfCode stmts
  let commentLines := (stmts.filter (fun s => s.kind = .commentStmt)).length
  if commentLines > 0 then (codeLines : Rat) / (commentLines : Rat)
  else (codeLines : Rat)

/-- The metrics record of `calculateMetrics`. -/
structure Metrics where
  totalStatements : Nat
  totalLines : Nat
  cyclomaticComplexity : Nat
  variableCount : Nat
  functionCount : Nat
  maxNestingDepth : Nat
  linesOfCode : Nat
  codeToCommentRatio : Rat
  qualityScore : Int
deriving DecidableEq, Repr

/-- Computable `Math.min` on integers (the lattice operations of the
ambient order do not reduce in the kernel). -/
def intMin (a b : Int) : Int := if a ≤ b then a else b

/-- Computable `Math.max` on integers. -/
def intMax (a b : Int) : Int := if a ≤ b then b else a

/-- `calculateQualityScore`: start at 100, complexity and nesting
penalties, the comment-ratio bonus, clamp to [0, 100]. -/
def calculateQualityScore (cc nesting : Nat) (ratio : Rat) : Int :=
  let score : Int := 100
  let score := if cc > 10 then score - ((cc : Int) - 10) * 5 else score
  let score := if nesting > 4 then score - ((nesting : Int) - 4) * 10 else score
  let score := if ratio > 3 && ratio < 10 then score + 10 else score
  intMax 0 (intMin 100 score)

/-- `calculateMetrics`. -/
def calculateMetrics (a : Analysis) : Metrics :=
  let cc := calculateCyclomaticComplexity a.statements
  let nesting := calculateMaxNesting a.statements
  let ratio := calculateCodeCommentRatio a.statements
  { totalStatements := a.statements.length
    totalLines := a.totalLines
    cyclomaticComplexity := cc
    variableCount := a.variables_.length
    functionCount := a.functions.length
    maxNestingDepth := nesting
    linesOfCode := countLinesOfCode a.statements
    codeToCommentRatio := ratio
    qualityScore := calculateQualityScore cc nesting ratio }

/-- One quality issue (`assessCodeQuality` issues). -/
structure QualityIssue where
  itype : Str
  severity : Str
  message : Str
  line : Option Nat := none
  count : Option Nat := none
deriving DecidableEq, Repr

/-- One suggestion (quality suggestions and optimization suggestions). -/
structure SuggestionRec where
  stype : Str
  message : Str
  line : Option Nat := none
  priority : Str := []
deriving DecidableEq, Repr

/-- The record `assessCodeQuality` returns. -/
structure QualityReport where
  issues : List QualityIssue
  suggestions : List SuggestionRec
  overallRating : Str
deriving DecidableEq, Repr

/-- One entry of `analyzeFunctionLengths` (length as the source computes
it: a plain subtraction of line numbers). -/
structure FunctionSpan where
  name : Str
  startLine : Nat
  length : Int
deriving DecidableEq, Repr

/-- `analyzeFunctionLengths`: each function runs to the next function
statement, the last one to the end of the input. -/
def analyzeFunctionLengths (totalLines : Nat) (stmts : List Statement) :
    List FunctionSpan :=
  let step := fun (acc : List FunctionSpan × Option (Str × Nat)) (s : Statement) =>
    if s.kind = .funcDef then
      match acc.2 with
      | some (nm, start) =>
        (acc.1 ++ [{ name := nm, startLine := start
                     length := (s.line : Int) - (start : Int) }]
         , some (s.name.getD [], s.line))
      | none => (acc.1, some (s.name.getD [], s.line))
    else acc
  let r := stmts.foldl step ([], none)
  match r.2 with
  | some (nm, start) =>
    r.1 ++ [{ name := nm, startLine := start
              length := (totalLines : Int) - (start : Int) }]
  | none => r.1

/-- Scanner for `/\b(\d+)\b/g` followed by `parseInt`: the maximal digit
runs of the text whose neighbours are not word characters.  `inRun` is the
digit run (reversed) currently being extended, `prevWord` whether the
previous character was a word character. -/
def magicScan (prevWord : Bool) (inRun : Option Str) : Str → List Nat
  | [] =>
    match inRun with
    | some a => [natOfDigits a.reverse]
    | none => []
  | c :: cs =>
    match inRun with
    | some a =>
      if c.isDigit then magicScan true (some (c :: a)) cs
      else if isWordChar c then magicScan true none cs
      else natOfDigits a.reverse :: magicScan false none cs
    | none =>
      if c.isDigit && !prevWord then magicScan true (some [c]) cs
      else magicScan (isWordChar c) none cs

/-- `findMagicNumbers`: the integer literals greater than 1 other than 100
and 1000, with the line they appear on. -/
def findMagicNumbers (stmts : List Statement) : List (Nat × Nat) :=
  (stmts.map fun s =>
    ((magicScan false none s.code).filter
        (fun n => 1 < n && n ≠ 100 && n ≠ 1000)).map
      (fun n => (n, s.line))).flatten

/-- `getOverallRating` from the issue count. -/
def getOverallRating (issueCount : Nat) : Str :=
  if issueCount = 0 then ("excellent").data
  else if issueCount ≤ 2 then ("good").data
  else if issueCount ≤ 5 then ("fair").data
  else ("needs_improvement").data

/-- `assessCodeQuality`: long functions, deep nesting, magic numbers. -/
def assessCodeQuality (a : Analysis) : QualityReport :=
  let longIssues :=
    ((analyzeFunctionLengths a.totalLines a.statements).filter
        (fun f => f.length > 50)).map
      fun f =>
        { itype := ("long_function").data, severity := ("warning").data
          message := ("Function ").data ++ ['\x27'] ++ f.name ++ ['\x27'] ++
            (" is ").data ++ (toString f.length).data ++
            (" lines long. Consider breaking it down.").data
          line := some f.startLine : QualityIssue }
  let deepNesting := a.statements.filter (fun s => s.indent > 8)
  let deepIssues :=
    if deepNesting.length > 0 then
      [{ itype := ("deep_nesting").data, severity := ("warning").data
         message :=
           ("Deep nesting detected. Consider refactoring for better readability.").data
         count := some deepNesting.length : QualityIssue }]
    else []
  let suggestions :=
    (findMagicNumbers a.statements).map fun nl =>
      { stype := ("magic_number").data
        message := ("Consider replacing magic number ").data ++ ['\x27'] ++
          (toString nl.1).data ++ ['\x27'] ++ (" with a named constant").data
        line := some nl.2 : SuggestionRec }
  let issues := longIssues ++ deepIssues
  { issues := issues, suggestions := suggestions
    overallRating := getOverallRating issues.length }

/-- One detected pattern (`identifyPatterns` output).  The source stores
the confidence values 0.6 and 0.7 as binary doubles; they are carried as
the rationals 6/10 and 7/10 and never computed with. -/
structure PatternInfo where
  ptype : Str
  description : Str
  confidence : Option Rat := none
  complexity : Option Str := none
  functions : List Str := []
  line : Option Nat := none
  severity : Str := []
deriving DecidableEq, Repr

/-- `identifyDesignPatterns`: name-based factory/observer detection. -/
def identifyDesignPatterns (functionNames : List Str) : List PatternInfo :=
  let factory :=
    if functionNames.any (fun n =>
        seqContains ("create").data (lowerStr n) ||
        seqContains ("factory").data (lowerStr n)) then
      [{ ptype := ("factory_pattern").data
         description := ("Factory pattern detected - functions that create objects").data
         confidence := some (6 / 10) : PatternInfo }]
    else []
  let observer :=
    if functionNames.any (fun n =>
        seqContains ("notify").data (lowerStr n) ||
        seqContains ("observer").data (lowerStr n)) then
      [{ ptype := ("observer_pattern").data
         description := ("Observer pattern detected - notification mechanism found").data
         confidence := some (7 / 10) : PatternInfo }]
    else []
  factory ++ observer

/-- Comma count of a statement's text. -/
def commaCount (l : Str) : Nat := (l.filter (fun c => c = ',')).length

/-- `identifyCodeSmells`: function statements with more than 5 parameters
as counted by commas. -/
def identifyCodeSmells (stmts : List Statement) : List PatternInfo :=
  (stmts.filter fun s =>
      s.kind == .funcDef && seqContains (",").data s.code &&
        commaCount s.code + 1 > 5).map
    fun s =>
      { ptype := ("long_parameter_list").data
        description := ("Function has ").data ++
          (toString (commaCount s.code + 1)).data ++
          (" parameters - consider using objects").data
        line := some s.line, severity := ("warning").data : PatternInfo }

/-- The nested-loop test of `identifyAlgorithmPatterns`: a `for` statement
followed later in the stream by a `for` statement at strictly greater
indent. -/
def hasNestedLoops : List Statement → Bool
  | [] => false
  | s :: rest =>
    (s.kind == .forStmt &&
      rest.any (fun t => t.kind == .forStmt && t.indent > s.indent)) ||
    hasNestedLoops rest

/-- `findRecursiveFunctions`: every function name that is also the target
of some call statement (anywhere in the analysis). -/
def findRecursiveFunctions (functionNames : List Str) (stmts : List Statement) :
    List Str :=
  functionNames.filter fun nm =>
    stmts.any fun s => s.kind == .callStmt && s.funcName == some nm

/-- `identifyAlgorithmPatterns`: nested loops and recursion. -/
def identifyAlgorithmPatterns (functionNames : List Str)
    (stmts : List Statement) : List PatternInfo :=
  let nested :=
    if hasNestedLoops stmts then
      [{ ptype := ("nested_loops").data
         description := ("Nested loops detected - possible O(n²) complexity").data
         complexity := some (("quadratic").data) : PatternInfo }]
    else []
  let rec_ := findRecursiveFunctions functionNames stmts
  let recP :=
    if rec_.length > 0 then
      [{ ptype := ("recursion").data
         description := ("Recursive functions detected").data
         functions := rec_ : PatternInfo }]
    else []
  nested ++ recP

/-- `identifyPatterns`: design patterns, then code smells, then algorithm
patterns. -/
def identifyPatterns (a : Analysis) : List PatternInfo :=
  identifyDesignPatterns a.functions ++ identifyCodeSmells a.statements ++
    identifyAlgorithmPatterns a.functions a.statements

/-- The source reads `statement.previousIndent || 0` in
`estimateTimeComplexity`; no code path ever assigns a `previousIndent`
field to a statement, so the read always yields 0. -/
def previousIndentOrZero (_ : Statement) : Nat := 0

/-- The loop-depth-to-big-O rendering at the end of
`estimateTimeComplexity`. -/
def depthText (d : Nat) : Str :=
  match d with
  | 0 => ("O(1)").data
  | 1 => ("O(n)").data
  | 2 => ("O(n²)").data
  | 3 => ("O(n³)").data
  | _ => ("O(n^").data ++ (toString d).data ++ (")").data

/-- The counter loop of `estimateTimeComplexity`: the depth rises on each
loop statement; the decrement branch compares the statement's indent with
the never-assigned `previousIndent` (that is, with 0). -/
def timeDepthGo (maxD cur : Nat) : List Statement → Nat
  | [] => maxD
  | s :: ss =>
    if s.kind == .forStmt || s.kind == .whileStmt then
      timeDepthGo (max maxD (cur + 1)) (cur + 1) ss
    else if s.indent < previousIndentOrZero s then
      timeDepthGo maxD (cur - 1) ss
    else timeDepthGo maxD cur ss

/-- `estimateTimeComplexity`. -/
def estimateTimeComplexity (stmts : List Statement) : Str :=
  depthText (timeDepthGo 0 0 stmts)

/-- `estimateSpaceComplexity`: recursion → O(n); otherwise O(1) below 10
distinct variables, O(n) from 10 on. -/
def estimateSpaceComplexity (variableCount : Nat)
    (patterns : List PatternInfo) : Str :=
  if patterns.any (fun p => p.ptype = ("recursion").data) then ("O(n)").data
  else if variableCount < 10 then ("O(1)").data
  else ("O(n)").data

/-- One bottleneck record. -/
structure Bottleneck where
  btype : Str
  description : Str
  impact : Str
deriving DecidableEq, Repr

/-- `identifyBottlenecks` from the identified patterns. -/
def identifyBottlenecks (patterns : List PatternInfo) : List Bottleneck :=
  let nested :=
    if (patterns.filter (fun p => p.ptype = ("nested_loops").data)).length > 0 then
      [{ btype := ("nested_loops").data
         description :=
           ("Nested loops may cause performance issues with large datasets").data
         impact := ("high").data : Bottleneck }]
    else []
  let recB :=
    if (patterns.filter (fun p => p.ptype = ("recursion").data)).length > 0 then
      [{ btype := ("recursion").data
         description :=
           ("Recursive functions may cause stack overflow with large inputs").data
         impact := ("medium").data : Bottleneck }]
    else []
  nested ++ recB

/-- The performance record. -/
structure Performance where
  timeComplexity : Str
  spaceComplexity : Str
  bottlenecks : List Bottleneck
  optimizationSuggestions : List SuggestionRec
deriving DecidableEq, Repr

/-- `generateOptimizationSuggestions`. -/
def generateOptimizationSuggestions (timeComplexity : Str)
    (bottlenecks : List Bottleneck) : List SuggestionRec :=
  let alg :=
    if seqContains ("n²").data timeComplexity ||
        seqContains ("n³").data timeComplexity then
      [{ stype := ("algorithm_optimization").data
         message :=
           ("Consider using more efficient algorithms to reduce time complexity").data
         priority := ("high").data : SuggestionRec }]
    else []
  let memo :=
    if bottlenecks.any (fun b => b.btype = ("recursion").data) then
      [{ stype := ("memoization").data
         message := ("Consider adding memoization to recursive functions").data
         priority := ("medium").data : SuggestionRec }]
    else []
  alg ++ memo

/-- `analyzePerformance` (called with `analysis.patterns` already set). -/
def analyzePerformance (a : Analysis) (patterns : List PatternInfo) :
    Performance :=
  let tc := estimateTimeComplexity a.statements
  let bn := identifyBottlenecks patterns
  { timeComplexity := tc
    spaceComplexity := estimateSpaceComplexity a.variables_.length patterns
    bottlenecks := bn
    optimizationSuggestions := generateOptimizationSuggestions tc bn }

/-- One security issue. -/
structure SecIssue where
  stype : Str
  severity : Str
  message : Str
  line : Nat
deriving DecidableEq, Repr

/-- The security record. -/
structure SecurityReport where
  issues : List SecIssue
  riskLevel : Str
deriving DecidableEq, Repr

/-- `analyzeSecurityIssues`: per statement, a high finding for the
case-insensitive substring `eval(` and a medium finding for `innerhtml`;
the risk level follows the total count with thresholds 0 and 2. -/
def analyzeSecurityIssues (stmts : List Statement) : SecurityReport :=
  let issues :=
    (stmts.map fun s =>
      (if seqContains ("eval(").data (lowerStr s.code) then
        [{ stype := ("eval_usage").data, severity := ("high").data
           message := ("Use of eval() detected - potential security risk").data
           line := s.line : SecIssue }]
      else []) ++
      (if seqContains ("innerhtml").data (lowerStr s.code) then
        [{ stype := ("innerHTML_usage").data, severity := ("medium").data
           message := ("Use of innerHTML - potential XSS vulnerability").data
           line := s.line : SecIssue }]
      else [])).flatten
  { issues := issues
    riskLevel :=
      if issues.length = 0 then ("low").data
      else if issues.length ≤ 2 then ("medium").data
      else ("high").data }

/-- The flow-insights record. -/
structure FlowInsights where
  entryPoints : List (Str × Nat)
  exitPoints : List (Nat × Str)
  branchingFactor : Nat
  pathComplexity : Nat
deriving DecidableEq, Repr

/-- `generateFlowInsights`. -/
def generateFlowInsights (stmts : List Statement) : FlowInsights :=
  let branches := (stmts.filter (fun s => isControlKind s.kind)).length
  { entryPoints := (stmts.filter (fun s => s.kind == .funcDef)).map
      fun s => (s.name.getD [], s.line)
    exitPoints := (stmts.filter (fun s => s.kind == .retStmt)).map
      fun s => (s.line, s.code)
    branchingFactor := branches
    pathComplexity := 2 ^ (min branches 10) }

/-- One entry of the variable-flow map. -/
structure VFlowEntry where
  line : Nat
  kind : SKind
  action : Str
deriving DecidableEq, Repr

/-- Appending an event to one key of the insertion-ordered map that models
the JavaScript `Map` of `trackVariableFlow`. -/
def vfAdd (m : List (Str × List VFlowEntry)) (v : Str) (e : VFlowEntry) :
    List (Str × List VFlowEntry) :=
  if m.any (fun kv => kv.1 = v) then
    m.map fun kv => if kv.1 = v then (kv.1, kv.2 ++ [e]) else kv
  else m ++ [(v, [e])]

/-- `trackVariableFlow`. -/
def trackVariableFlow (stmts : List Statement) :
    List (Str × List VFlowEntry) :=
  stmts.foldl
    (fun m s =>
      s.vars.foldl
        (fun m v =>
          vfAdd m v
            { line := s.line, kind := s.kind
              action := if s.kind = .varDecl then ("declare").data
                        else ("modify").data })
        m)
    []

/-- JavaScript `ToInt32`: reduce an integer to the signed 32-bit range. -/
def toInt32 (n : Int) : Int := (n + 2 ^ 31) % 2 ^ 32 - 2 ^ 31

/-- `hashCode`: the 32-bit rolling hash `hash = (hash << 5) - hash + code`
re-wrapped to 32 bits at every step (`hash & hash`); character codes are
the Unicode scalar values (they agree with `charCodeAt` on the Basic
Multilingual Plane). -/
def hashCode (s : Str) : Int :=
  s.foldl (fun h c => toInt32 (toInt32 (h * 32) - h + (c.toNat : Int))) 0

/-! The flowchart generator (`FlowchartGenerator`). -/

/-- A node's type tag: `'start'`, `'end'`, or the statement's kind. -/
inductive NodeKind where
  | startN | endN | ofStmt (k : SKind)
deriving DecidableEq, Repr

/-- One flowchart node.  The source renders ids as the strings `A1`,
`A2`, …; the injective counter value is kept as a `Nat`.  `previous`,
`yesBranch`, `noBranch` and `loopExit` are assigned by the source but
never read afterwards, so they are not carried. -/
structure FNode where
  id : Nat
  nkind : NodeKind
  label : Str
  shape : Str
  cls : Str
  stmt : Option Statement := none
  index : Option Nat := none
  connectsToEnd : Bool := false
  hasCondBranches : Bool := false
  hasLoopBack : Bool := false
deriving DecidableEq, Repr

/-- `generateNodeLabel` before the kind-specific decoration: the raw label,
its 25-character truncation, and the Mermaid escaping (`"` to `\"`,
newlines to spaces). -/
def generateNodeLabel (s : Statement) : Str :=
  let raw : Str :=
    match s.kind with
    | .varDecl => optText s.name ++ (" = value").data
    | .assignStmt => optText s.varName ++ (" = value").data
    | .funcDef => ("function ").data ++ optText s.name ++ ("()").data
    | .ifStmt =>
      match s.condition with
      | some c => if c = [] then ("condition").data else c
      | none => ("condition").data
    | .forStmt =>
      match s.loopVar with
      | some v => if v = [] then ("for loop").data else ("for ").data ++ v
      | none => ("for loop").data
    | .whileStmt =>
      match s.condition with
      | some c => if c = [] then ("while condition").data else c
      | none => ("while condition").data
    | .callStmt => optText s.funcName ++ ("()").data
    | .retStmt => ("return").data
    | _ => s.code
  let truncated :=
    if raw.length > 25 then raw.take 22 ++ ("...").data else raw
  truncated.flatMap fun c =>
    if c = '"' then ['\\', '"'] else if c = '\n' then [' '] else [c]

/-- `createNodeFromStatement`: shape, class and decorated label per
statement kind. -/
def createNodeFromStatement (s : Statement) (idx cid : Nat) : FNode :=
  let label := generateNodeLabel s
  let base : FNode :=
    { id := cid, nkind := .ofStmt s.kind, label := label
      shape := ("rect").data, cls := ("process").data
      stmt := some s, index := some idx }
  match s.kind with
  | .ifStmt =>
    { base with shape := ("diamond").data, cls := ("condition").data }
  | .forStmt =>
    { base with
        shape := ("diamond").data
        cls := ("condition").data
        label := ("Loop: ").data ++ label }
  | .whileStmt =>
    { base with
        shape := ("diamond").data
        cls := ("condition").data
        label := ("Loop: ").data ++ label }
  | .funcDef =>
    { base with cls := ("function").data, label := ("📋 ").data ++ label }
  | .varDecl =>
    { base with cls := ("assignment").data, label := ("📝 ").data ++ label }
  | .assignStmt =>
    { base with cls := ("assignment").data, label := ("📝 ").data ++ label }
  | .callStmt =>
    { base with cls := ("process").data, label := ("⚙️ ").data ++ label }
  | .retStmt =>
    { base with cls := ("return").data, label := ("↩️ ").data ++ label }
  | _ => base

/-- The flag assignments of `createNodes`' switch: branch flags for
conditionals and loops, `connectsToEnd` for returns. -/
def adornNode (n : FNode) (k : SKind) : FNode :=
  match k with
  | .ifStmt => { n with hasCondBranches := true }
  | .forStmt => { n with hasLoopBack := true }
  | .whileStmt => { n with hasLoopBack := true }
  | .retStmt => { n with connectsToEnd := true }
  | _ => n

/-- The start node (`A1`). -/
def startNode : FNode :=
  { id := 1, nkind := .startN, label := ("START").data
    shape := ("ellipse").data, cls := ("startEnd").data }

/-- The end node. -/
def endNode (cid : Nat) : FNode :=
  { id := cid, nkind := .endN, label := ("END").data
    shape := ("ellipse").data, cls := ("startEnd").data }

/-- The statement nodes, numbering ids from `cid` and indices from
`idx`. -/
def stmtNodes : Nat → Nat → List Statement → List FNode
  | _, _, [] => []
  | cid, idx, s :: ss =>
    adornNode (createNodeFromStatement s idx cid) s.kind ::
      stmtNodes (cid + 1) (idx + 1) ss

/-- `createNodes`: the start node, one node per statement (the statement
hook always returns a node), the end node.  Ids are the consecutive
counter values 1, 2, …, `statements.length + 2`. -/
def createNodes (stmts : List Statement) : List FNode :=
  startNode :: stmtNodes 2 0 stmts ++ [endNode (stmts.length + 2)]

/-- One connection (`{from, to, label, style}`). -/
structure Conn where
  fromId : Nat
  toId : Nat
  label : Str
  style : Option Str := none
deriving DecidableEq, Repr

/-- The indent the source reads off `node.statement.indent`. -/
def nodeIndent (n : FNode) : Nat :=
  match n.stmt with
  | some s => s.indent
  | none => 0

/-- `findElseTarget` / `findLoopExit` (they are the same scan): the first
node from the scan list carrying a statement whose indent is at most
`ind`, or the end node. -/
def findTarget (ind endId : Nat) : List FNode → Nat
  | [] => endId
  | n :: ns =>
    match n.stmt with
    | some s => if s.indent ≤ ind then n.id else findTarget ind endId ns
    | none => findTarget ind endId ns

/-- `findLoopBack`: the last node of the contiguous run (right after the
loop node) of nodes carrying statements more indented than the loop. -/
def findLoopBack (ind : Nat) : List FNode → Option Nat
  | [] => none
  | n :: ns =>
    match n.stmt with
    | some s =>
      if s.indent > ind then
        match findLoopBack ind ns with
        | some b => some b
        | none => some n.id
      else none
    | none => none

/-- The styles the source attaches to branch edges. -/
def styleYes : Str := ("stroke:#27ae60,stroke-width:2px").data

/-- Style of the negative branch and of the loop exit. -/
def styleNo : Str := ("stroke:#e74c3c,stroke-width:2px").data

/-- Style of the loop-continue edge. -/
def styleContinue : Str := ("stroke:#3498db,stroke-width:2px").data

/-- Style of the loop back-edge. -/
def styleLoop : Str :=
  ("stroke:#f39c12,stroke-width:2px,stroke-dasharray: 5 5").data

/-- The loop of `createConnections` over adjacent node pairs: `rest` is
the node list from index `i + 2` on, exactly the scan range of the
else/exit searches, while the loop-back search starts at `i + 1`. -/
def connsAux (endId : Nat) : List FNode → List Conn
  | cur :: next :: rest =>
    let step : List Conn :=
      if cur.nkind = .startN then
        [{ fromId := cur.id, toId := next.id, label := [] }]
      else if cur.nkind = .ofStmt .ifStmt then
        [{ fromId := cur.id, toId := next.id, label := ("Yes").data
           style := some styleYes },
         { fromId := cur.id, toId := findTarget (nodeIndent cur) endId rest
           label := ("No").data, style := some styleNo }]
      else if cur.nkind = .ofStmt .forStmt ∨ cur.nkind = .ofStmt .whileStmt then
        [{ fromId := cur.id, toId := next.id, label := ("Continue").data
           style := some styleContinue },
         { fromId := cur.id, toId := findTarget (nodeIndent cur) endId rest
           label := ("Exit").data, style := some styleNo }] ++
        (match findLoopBack (nodeIndent cur) (next :: rest) with
         | some backId =>
           [{ fromId := backId, toId := cur.id, label := ("Loop").data
              style := some styleLoop }]
         | none => [])
      else if cur.connectsToEnd then
        [{ fromId := cur.id, toId := endId, label := [] }]
      else if cur.nkind ≠ .endN then
        [{ fromId := cur.id, toId := next.id, label := [] }]
      else []
    step ++ connsAux endId (next :: rest)
  | _ => []

/-- The id of the last node (`nodes[nodes.length - 1].id`). -/
def lastId : List FNode → Nat
  | [] => 0
  | [n] => n.id
  | _ :: n :: ns => lastId (n :: ns)

/-- `createConnections(nodes, statements)` (the statement argument is
never used by the source body). -/
def createConnections (nodes : List FNode) : List Conn :=
  connsAux (lastId nodes) nodes

/-- Rendering of a node id as the source's `A` + counter string. -/
def nodeIdText (i : Nat) : Str := ("A").data ++ (toString i).data

/-- `getShapeCharacters`: the Mermaid bracket pair per shape (the braces
are the diamond delimiters). -/
def shapeOpen (shape : Str) : Str :=
  if shape = ("rect").data then ("[").data
  else if shape = ("ellipse").data then ("(").data
  else if shape = ("diamond").data then ['\x7b']
  else if shape = ("circle").data then ("((").data
  else if shape = ("hexagon").data then ['\x7b', '\x7b']
  else ("[").data

/-- Closing counterpart of `shapeOpen`. -/
def shapeClose (shape : Str) : Str :=
  if shape = ("rect").data then ("]").data
  else if shape = ("ellipse").data then (")").data
  else if shape = ("diamond").data then ['\x7d']
  else if shape = ("circle").data then ("))").data
  else if shape = ("hexagon").data then ['\x7d', '\x7d']
  else ("]").data

/-- `addNode`: one Mermaid node declaration line. -/
def nodeLineText (n : FNode) : Str :=
  ("    ").data ++ nodeIdText n.id ++ shapeOpen n.shape ++ ['"'] ++
    n.label ++ ['"'] ++ shapeClose n.shape ++ ['\n']

/-- `addConnection` over the connection list.  `getLinkIndex()` draws
`Math.floor(Math.random() * 100)`; the draws are supplied by the oracle
`rng` (reduced modulo 100), consumed once per styled connection, `k`
counting the calls so far. -/
def connLinesText (rng : Nat → Nat) : Nat → List Conn → Str
  | _, [] => []
  | k, c :: cs =>
    let lbl : Str :=
      if c.label = [] then []
      else ("|").data ++ ['"'] ++ c.label ++ ['"'] ++ ("|").data
    let base :=
      ("    ").data ++ nodeIdText c.fromId ++ (" -->").data ++ lbl ++
        (" ").data ++ nodeIdText c.toId ++ ['\n']
    match c.style with
    | some st =>
      base ++ ("    linkStyle ").data ++ (toString (rng k % 100)).data ++
        (" ").data ++ st ++ ['\n'] ++ connLinesText rng (k + 1) cs
    | none => base ++ connLinesText rng k cs

/-- `getNodesByClass`: `A1,A` + (counter − 1) for the start/end class, the
placeholder `A2,A3,A4` otherwise; after `createNodes` the counter stands
at `statements.length + 3`. -/
def nodesByClassText (counter : Nat) (className : String) : Str :=
  if className = "startEnd" then
    ("A1,A").data ++ (toString (counter - 1)).data
  else ("A2,A3,A4").data

/-- `addStyling`: the literal style template, with the class lists filled
in by `getNodesByClass`. -/
def stylingText (counter : Nat) : Str :=
  ("\n    %% Styling\n    classDef startEnd fill:#e8f5e8,stroke:#27ae60,stroke-width:3px,color:#000\n    classDef condition fill:#fff3cd,stroke:#ffc107,stroke-width:2px,color:#000\n    classDef process fill:#e3f2fd,stroke:#2196f3,stroke-width:2px,color:#000\n    classDef function fill:#f3e5f5,stroke:#9c27b0,stroke-width:2px,color:#000\n    classDef assignment fill:#e8f5e8,stroke:#4caf50,stroke-width:2px,color:#000\n    classDef return fill:#ffebee,stroke:#f44336,stroke-width:2px,color:#000\n    \n    %% Apply classes\n    class ").data ++
  nodesByClassText counter "startEnd" ++ (" startEnd\n    class ").data ++
  nodesByClassText counter "condition" ++ (" condition\n    class ").data ++
  nodesByClassText counter "process" ++ (" process\n    class ").data ++
  nodesByClassText counter "function" ++ (" function\n    class ").data ++
  nodesByClassText counter "assignment" ++ (" assignment\n    class ").data ++
  nodesByClassText counter "return" ++ (" return\n").data

/-- `generateFromAnalysis`: header, node lines, connection lines, styling
block. -/
def generateFromAnalysis (stmts : List Statement) (rng : Nat → Nat) : Str :=
  let nodes := createNodes stmts
  let conns := createConnections nodes
  ("flowchart TD\n").data ++
    (nodes.map nodeLineText).flatten ++
    connLinesText rng 0 conns ++
    stylingText (stmts.length + 3)

/-! The public entry point `analyzeCode` with its cache. -/

/-- The assembled analysis result: the parser record enriched by
`enhanceAnalysis`, the execution steps, the metrics and the flowchart
code, in the source's assembly order. -/
structure AnalysisResult where
  language : String
  totalLines : Nat
  statements : List Statement
  variables_ : List Str
  functions : List Str
  controlStructures : List Statement
  complexity : Nat
  quality : QualityReport
  patterns : List PatternInfo
  performance : Performance
  security : SecurityReport
  flowInsights : FlowInsights
  variableFlow : List (Str × List VFlowEntry)
  executionSteps : List ExecStep
  metrics : Metrics
  flowchartCode : Str
deriving DecidableEq, Repr

/-- The cache-miss path of `analyzeCode`: parse, enhance, narrate, measure,
draw. -/
def computeAnalysis (code language : String) (rng : Nat → Nat) :
    AnalysisResult :=
  let a := parseCode language code
  let patterns := identifyPatterns a
  { language := a.language
    totalLines := a.totalLines
    statements := a.statements
    variables_ := a.variables_
    functions := a.functions
    controlStructures := a.controlStructures
    complexity := a.complexity
    quality := assessCodeQuality a
    patterns := patterns
    performance := analyzePerformance a patterns
    security := analyzeSecurityIssues a.statements
    flowInsights := generateFlowInsights a.statements
    variableFlow := trackVariableFlow a.statements
    executionSteps := generateExecutionSteps a.statements
    metrics := calculateMetrics a
    flowchartCode := generateFromAnalysis a.statements rng }

/-- The cache key `` `${language}:${this.hashCode(code)}` ``. -/
def cacheKey (language code : String) : String :=
  language ++ ":" ++ toString (hashCode code.data)

/-- The analyzer's cache, a JavaScript `Map` in insertion order. -/
abbrev CacheMap := List (String × AnalysisResult)

/-- `Map.get` (after `Map.has`): the first entry with the key. -/
def lookupEntry (st : CacheMap) (key : String) : Option AnalysisResult :=
  match st.find? (fun kv => kv.1 = key) with
  | some kv => some kv.2
  | none => none

/-- `Map.set`: replace an existing key in place, else append. -/
def setEntry (st : CacheMap) (key : String) (r : AnalysisResult) : CacheMap :=
  if st.any (fun kv => kv.1 = key) then
    st.map fun kv => if kv.1 = key then (kv.1, r) else kv
  else st ++ [(key, r)]

/-- `clearCache` (`this.analysisCache.clear()`). -/
def clearCache (_ : CacheMap) : CacheMap := []

/-- `analyzeCode(code, language)` with the cache state passed explicitly:
a hit returns the stored result unchanged, a miss computes and stores. -/
def analyzeCodeS (st : CacheMap) (code language : String)
    (rng : Nat → Nat) : AnalysisResult × CacheMap :=
  let key := cacheKey language code
  match lookupEntry st key with
  | some r => (r, st)
  | none =>
    let r := computeAnalysis code language rng
    (r, setEntry st key r)

/-! Specification-side definitions: these follow the wording of the spec
and of the claims (not the source), for comparison with the source-derived
definitions above. -/

/-- Count of statements of kind conditional, for-loop or while-loop. -/
def countBranchStatements (stmts : List Statement) : Nat :=
  stmts.countP (fun s => isControlKind s.kind)

/-- Sum of the boolean-operator counts over the condition text of every
statement that carries one (conditionals and while-loops). -/
def sumCondBoolOps (stmts : List Statement) : Nat :=
  (stmts.map fun s =>
    if s.kind == .ifStmt || s.kind == .whileStmt then
      countOps (s.condition.getD [])
    else 0).sum

/-- The claim's cyclomatic-complexity formula: base 1, one per branching
statement, plus the boolean operators of the conditions of conditional
statements only (boolean operators in while-loop conditions excluded). -/
def specCyclomaticConditionalOnly (stmts : List Statement) : Nat :=
  1 + countBranchStatements stmts +
    (stmts.map fun s =>
      if s.kind == .ifStmt then countOps (s.condition.getD []) else 0).sum

/-- Count of loop-kind (for/while) statements. -/
def loopStatementCount (stmts : List Statement) : Nat :=
  stmts.countP (fun s => s.kind == .forStmt || s.kind == .whileStmt)

/-! Utility lemmas. -/

theorem countOps_eq_zero : ∀ l : Str,
    seqContains ("&&").data l = false → seqContains ("||").data l = false →
    countOps l = 0
  | [] => fun _ _ => rfl
  | [_] => fun _ _ => rfl
  | a :: b :: r => fun h1 h2 => by
    have h1' : (seqStartsWith (("&&").data) (a :: b :: r) ||
        seqContains (("&&").data) (b :: r)) = false := h1
    have h2' : (seqStartsWith (("||").data) (a :: b :: r) ||
        seqContains (("||").data) (b :: r)) = false := h2
    have h1a := (Bool.or_eq_false_iff.mp h1').1
    have h1b := (Bool.or_eq_false_iff.mp h1').2
    have h2a := (Bool.or_eq_false_iff.mp h2').1
    have h2b := (Bool.or_eq_false_iff.mp h2').2
    have hr := countOps_eq_zero (b :: r) h1b h2b
    have hand : (a = '&' && b = '&') = false := by
      by_cases ha : a = '&'
      · by_cases hb : b = '&'
        · subst ha; subst hb; simp [seqStartsWith] at h1a
        · simp [hb]
      · simp [ha]
    have hor : (a = '|' && b = '|') = false := by
      by_cases ha : a = '|'
      · by_cases hb : b = '|'
        · subst ha; subst hb; simp [seqStartsWith] at h2a
        · simp [hb]
      · simp [ha]
    simp [countOps, hand, hor, hr]

/-- Which statement kinds carry a condition: exactly the conditional and
while-loop branches of `analyzeLine` set one. -/
def condKindInv (s : Statement) : Prop :=
  match s.kind with
  | .ifStmt => s.condition.isSome = true
  | .whileStmt => s.condition.isSome = true
  | _ => s.condition = none

theorem analyzeLine_condKindInv (p : Profile) (line : Str) (ln il : Nat) :
    condKindInv (analyzeLine p line ln il) := by
  unfold analyzeLine
  split
  · simp [condKindInv]
  · split
    · simp [condKindInv]
    · split
      · simp [condKindInv]
      · split
        · simp [condKindInv]
        · split
          · simp [condKindInv]
          · split
            · simp [condKindInv]
            · split
              · simp [condKindInv]
              · split
                · split
                  · simp [condKindInv]
                  · simp [condKindInv, genericOf]
                · simp [condKindInv, genericOf]

theorem analyzeLine_kind_ne_comment (p : Profile) (line : Str) (ln il : Nat) :
    (analyzeLine p line ln il).kind ≠ .commentStmt := by
  unfold analyzeLine
  split
  · simp
  · split
    · simp
    · split
      · simp
      · split
        · simp
        · split
          · simp
          · split
            · simp
            · split
              · simp
              · split
                · split
                  · simp
                  · simp [genericOf]
                · simp [genericOf]

theorem analyzeLine_python_ne_assign (line : Str) (ln il : Nat) :
    (analyzeLine .python line ln il).kind ≠ .assignStmt := by
  unfold analyzeLine
  repeat' split
  all_goals simp_all [patHasAssignment, genericOf]

theorem analyzeLine_python_varDecl (line : Str) (ln il : Nat)
    (h : (wordThenEq line).isSome = true) :
    (analyzeLine .python line ln il).kind = .varDecl := by
  obtain ⟨w, hw⟩ := Option.isSome_iff_exists.mp h
  simp [analyzeLine, patVariableName, hw]

/-- Membership in the statements built by `parseGo`: every statement is
either inherited from the accumulator or produced by `analyzeLine`. -/
theorem parseGo_statements_mem (p : Profile) :
    ∀ (lines : List Str) (n : Nat) (acc : Analysis) (s : Statement),
      s ∈ (parseGo p lines n acc).statements →
      s ∈ acc.statements ∨ ∃ line ln il, s = analyzeLine p line ln il := by
  intro lines
  induction lines with
  | nil => intro n acc s h; exact Or.inl h
  | cons l ls ih =>
    intro n acc s h
    rcases ih (n + 1) (parseStep p n l acc) s h with h2 | h2
    · unfold parseStep at h2
      simp only [] at h2
      split at h2
      · exact Or.inl h2
      · split at h2
        · exact Or.inl h2
        · simp only [List.mem_append, List.mem_singleton] at h2
          rcases h2 with h3 | h3
          · exact Or.inl h3
          · exact Or.inr ⟨trimStr l, n, (l.takeWhile isSpaceChar).length / 2, h3⟩
    · exact Or.inr h2

/-- Every statement `parseCode` emits comes from `analyzeLine`. -/
theorem parseCode_statements_mem (language code : String) (s : Statement)
    (h : s ∈ (parseCode language code).statements) :
    ∃ line ln il, s = analyzeLine (profileOf language) line ln il := by
  unfold parseCode at h
  rcases parseGo_statements_mem _ _ _ _ _ h with h2 | h2
  · simp at h2
  · exact h2

theorem cyclomaticStep_eq (s : Statement) (h : condKindInv s) (acc : Nat) :
    cyclomaticStep acc s =
      acc + (if isControlKind s.kind then 1 else 0) +
        (if s.kind == .ifStmt || s.kind == .whileStmt then
          countOps (s.condition.getD []) else 0) := by
  unfold condKindInv at h
  cases hk : s.kind <;> rw [hk] at h
  case ifStmt =>
    obtain ⟨c, hc⟩ := Option.isSome_iff_exists.mp h
    by_cases hcont : (seqContains ("&&").data c = true ∨
        seqContains ("||").data c = true)
    · simp [cyclomaticStep, hk, hc, isControlKind, hcont]
    · have hz := countOps_eq_zero c
        (by simpa using (not_or.mp hcont).1)
        (by simpa using (not_or.mp hcont).2)
      simp [cyclomaticStep, hk, hc, isControlKind, hz]
  case whileStmt =>
    obtain ⟨c, hc⟩ := Option.isSome_iff_exists.mp h
    by_cases hcont : (seqContains ("&&").data c = true ∨
        seqContains ("||").data c = true)
    · simp [cyclomaticStep, hk, hc, isControlKind, hcont]
    · have hz := countOps_eq_zero c
        (by simpa using (not_or.mp hcont).1)
        (by simpa using (not_or.mp hcont).2)
      simp [cyclomaticStep, hk, hc, isControlKind, hz]
  all_goals simp [cyclomaticStep, hk, h, isControlKind]

theorem cyclomatic_foldl : ∀ (stmts : List Statement),
    (∀ s ∈ stmts, condKindInv s) → ∀ acc : Nat,
    List.foldl cyclomaticStep acc stmts =
      acc + countBranchStatements stmts + sumCondBoolOps stmts := by
  intro stmts
  induction stmts with
  | nil => intro _ acc; simp [countBranchStatements, sumCondBoolOps]
  | cons s rest ih =>
    intro hinv acc
    simp only [List.foldl_cons]
    rw [ih (fun t ht => hinv t (List.mem_cons_of_mem _ ht)) (cyclomaticStep acc s)]
    rw [cyclomaticStep_eq s (hinv s (List.mem_cons_self _ _))]
    unfold countBranchStatements sumCondBoolOps
    simp only [List.countP_cons, List.map_cons, List.sum_cons]
    split_ifs <;> omega

/-- C1 (amended): cyclomaticComplexity over any parsed input is 1 plus
the branching-statement count plus the boolean operators of the condition
text of conditional AND while-loop statements: the source adds the
operator count for every statement carrying a condition, and exactly the
conditional and while-loop statements carry one. -/
theorem c1_cyclomatic_includes_while (language code : String) :
    calculateCyclomaticComplexity (parseCode language code).statements =
      1 + countBranchStatements (parseCode language code).statements +
        sumCondBoolOps (parseCode language code).statements := by
  unfold calculateCyclomaticComplexity
  apply cyclomatic_foldl
  intro s hs
  obtain ⟨line, ln, il, rfl⟩ := parseCode_statements_mem _ _ _ hs
  exact analyzeLine_condKindInv _ _ _ _

/-- C1 (counterexample): on the single-line input `while (a && b)` the
source computes complexity 3 (the `&&` of the while condition counts),
while the claim's formula — boolean operators of conditional statements
only — yields 2. -/
theorem c1_counterexample :
    calculateCyclomaticComplexity
        (parseCode "javascript" "while (a && b)").statements = 3 ∧
      specCyclomaticConditionalOnly
        (parseCode "javascript" "while (a && b)").statements = 2 ∧
      calculateCyclomaticComplexity
          (parseCode "javascript" "while (a && b)").statements ≠
        specCyclomaticConditionalOnly
          (parseCode "javascript" "while (a && b)").statements := by
  refine ⟨by decide, by decide, by decide⟩

theorem timeDepthGo_eq : ∀ (stmts : List Statement) (maxD cur : Nat),
    cur ≤ maxD →
    timeDepthGo maxD cur stmts = max maxD (cur + loopStatementCount stmts) := by
  intro stmts
  induction stmts with
  | nil =>
    intro maxD cur h
    simp [timeDepthGo, loopStatementCount]
    omega
  | cons s rest ih =>
    intro maxD cur h
    by_cases hk : (s.kind == SKind.forStmt || s.kind == SKind.whileStmt) = true
    · have := ih (max maxD (cur + 1)) (cur + 1) (by omega)
      simp only [timeDepthGo, hk, if_true, this, loopStatementCount,
        List.countP_cons, hk]
      simp [loopStatementCount] at this ⊢
      omega
    · have hlt : ¬ s.indent < previousIndentOrZero s := by
        unfold previousIndentOrZero; omega
      have := ih maxD cur h
      simp only [timeDepthGo, hk, if_false, hlt, this, loopStatementCount,
        List.countP_cons]
      simp [hk]

/-- C2 (amended): the loop-depth counter of `estimateTimeComplexity` never
decrements — the decrement branch compares the indent with the
never-assigned `previousIndent` field (that is, with 0) — so the depth it
maps through O(1), O(n), O(n²), O(n³), O(n^d) is simply the total number
of loop-kind statements; two sequential non-nested loops therefore give
O(n²). -/
theorem c2_time_depth_is_loop_count (stmts : List Statement) :
    estimateTimeComplexity stmts = depthText (loopStatementCount stmts) := by
  unfold estimateTimeComplexity
  rw [timeDepthGo_eq stmts 0 0 (Nat.le_refl 0)]
  simp

/-- C2 (counterexample): two sequential, non-nested `for` loops — the
claim requires O(n) here, the source computes O(n²). -/
theorem c2_counterexample :
    estimateTimeComplexity
        (parseCode "javascript"
          "for (i = 0; i < n; i = i + 1)\nx = 1\nfor (j = 0; j < n; j = j + 1)").statements
      = ("O(n²)").data ∧
    estimateTimeComplexity
        (parseCode "javascript"
          "for (i = 0; i < n; i = i + 1)\nx = 1\nfor (j = 0; j < n; j = j + 1)").statements
      ≠ ("O(n)").data := by
  refine ⟨by decide, by decide⟩

theorem secIssues_counts : ∀ stmts : List Statement,
    (analyzeSecurityIssues stmts).issues.length =
        stmts.countP (fun s => seqContains ("eval(").data (lowerStr s.code)) +
          stmts.countP (fun s => seqContains ("innerhtml").data (lowerStr s.code)) ∧
    (analyzeSecurityIssues stmts).issues.countP
        (fun i => i.severity == ("high").data) =
      stmts.countP (fun s => seqContains ("eval(").data (lowerStr s.code)) ∧
    (analyzeSecurityIssues stmts).issues.countP
        (fun i => i.severity == ("medium").data) =
      stmts.countP (fun s => seqContains ("innerhtml").data (lowerStr s.code)) := by
  intro stmts
  induction stmts with
  | nil => simp [analyzeSecurityIssues]
  | cons s rest ih =>
    obtain ⟨ih1, ih2, ih3⟩ := ih
    simp only [analyzeSecurityIssues, List.map_cons, List.flatten_cons,
      List.countP_cons, List.countP_append, List.length_append] at ih1 ih2 ih3 ⊢
    by_cases he : seqContains ("eval(").data (lowerStr s.code) = true <;>
      by_cases hi : seqContains ("innerhtml").data (lowerStr s.code) = true <;>
        simp [he, hi, ih1, ih2, ih3] <;> omega

/-- C9: a statement containing the case-insensitive `eval(` yields one
high-severity finding, one containing `innerhtml` one medium-severity
finding; the risk level is low at 0 findings, medium at 1 or 2, high
above 2 — in particular medium with exactly one finding. -/
theorem c9_security_findings (stmts : List Statement) :
    ((analyzeSecurityIssues stmts).issues.length =
        stmts.countP (fun s => seqContains ("eval(").data (lowerStr s.code)) +
          stmts.countP (fun s => seqContains ("innerhtml").data (lowerStr s.code))) ∧
    ((analyzeSecurityIssues stmts).issues.countP
        (fun i => i.severity == ("high").data) =
      stmts.countP (fun s => seqContains ("eval(").data (lowerStr s.code))) ∧
    ((analyzeSecurityIssues stmts).issues.countP
        (fun i => i.severity == ("medium").data) =
      stmts.countP (fun s => seqContains ("innerhtml").data (lowerStr s.code))) ∧
    ((analyzeSecurityIssues stmts).riskLevel =
      if (analyzeSecurityIssues stmts).issues.length = 0 then ("low").data
      else if (analyzeSecurityIssues stmts).issues.length ≤ 2 then ("medium").data
      else ("high").data) ∧
    ((analyzeSecurityIssues stmts).issues.length = 1 →
      (analyzeSecurityIssues stmts).riskLevel = ("medium").data) := by
  obtain ⟨h1, h2, h3⟩ := secIssues_counts stmts
  refine ⟨h1, h2, h3, by simp [analyzeSecurityIssues], ?_⟩
  intro hlen
  have h4 : (analyzeSecurityIssues stmts).riskLevel =
      if (analyzeSecurityIssues stmts).issues.length = 0 then ("low").data
      else if (analyzeSecurityIssues stmts).issues.length ≤ 2 then ("medium").data
      else ("high").data := by simp [analyzeSecurityIssues]
  rw [h4, hlen]
  simp

/-- Witness for C9 at a concrete statement containing `eval(`. -/
theorem c9_security_findings_witness :
    (analyzeSecurityIssues
        [{ kind := .callStmt, line := 1, indent := 0,
           code := ("eval(x)").data }]).riskLevel = ("medium").data :=
  (c9_security_findings
    [{ kind := .callStmt, line := 1, indent := 0,
       code := ("eval(x)").data }]).2.2.2.2 (by decide)

theorem lookupEntry_append_of_absent (key : String) (r : AnalysisResult) :
    ∀ st : CacheMap, st.any (fun kv => kv.1 = key) = false →
    lookupEntry (st ++ [(key, r)]) key = some r := by
  intro st
  induction st with
  | nil => intro _; simp [lookupEntry]
  | cons kv st' ih =>
    intro h
    simp only [List.any_cons, Bool.or_eq_false_iff] at h
    have h1 : (kv.1 = key) = False := by simpa using h.1
    simp only [List.cons_append, lookupEntry, List.find?]
    rw [show (decide (kv.1 = key)) = false by simp [h1]]
    exact ih h.2

theorem lookupEntry_map_replace (key : String) (r : AnalysisResult) :
    ∀ st : CacheMap, st.any (fun kv => kv.1 = key) = true →
    lookupEntry (st.map fun kv => if kv.1 = key then (kv.1, r) else kv) key =
      some r := by
  intro st
  induction st with
  | nil => intro h; simp at h
  | cons kv st' ih =>
    intro h
    by_cases h1 : kv.1 = key
    · simp [lookupEntry, List.find?, h1]
    · simp only [List.any_cons] at h
      have h2 : st'.any (fun kv => kv.1 = key) = true := by
        rcases Bool.or_eq_true_iff.mp h with h3 | h3
        · exact absurd (by simpa using h3) h1
        · exact h3
      simp only [List.map_cons, lookupEntry, List.find?, if_neg h1]
      rw [show (decide (kv.1 = key)) = false by simp [h1]]
      exact ih h2

theorem lookupEntry_setEntry (st : CacheMap) (key : String)
    (r : AnalysisResult) : lookupEntry (setEntry st key r) key = some r := by
  unfold setEntry
  by_cases h : st.any (fun kv => kv.1 = key) = true
  · simpa [h] using lookupEntry_map_replace key r st h
  · have h2 : st.any (fun kv => kv.1 = key) = false :=
      Bool.eq_false_iff.mpr h
    simpa [h2] using lookupEntry_append_of_absent key r st h2

/-- C7: analyzing the same `(language, content)` pair twice returns the
cached result with the cache unchanged (the second random oracle is never
consulted), and after `clear()` the same query recomputes a fresh result
through the compute path rather than through any stored entry. -/
theorem c7_cache_idempotent_and_clear (st : CacheMap) (code language : String)
    (rng1 rng2 : Nat → Nat) :
    analyzeCodeS (analyzeCodeS st code language rng1).2 code language rng2 =
      analyzeCodeS st code language rng1 ∧
    analyzeCodeS (clearCache (analyzeCodeS st code language rng1).2)
        code language rng2 =
      (computeAnalysis code language rng2,
        setEntry [] (cacheKey language code)
          (computeAnalysis code language rng2)) := by
  constructor
  · unfold analyzeCodeS
    simp only []
    cases h : lookupEntry st (cacheKey language code) with
    | some r => simp [h]
    | none => simp [h, lookupEntry_setEntry]
  · unfold clearCache analyzeCodeS
    simp [lookupEntry]

theorem trimEnd_eq_nil_iff : ∀ l : Str,
    trimEnd l = [] ↔ ∀ c ∈ l, isSpaceChar c = true := by
  intro l
  induction l with
  | nil => simp [trimEnd]
  | cons c cs ih =>
    simp only [trimEnd]
    cases h : trimEnd cs with
    | nil =>
      have hall := ih.mp h
      by_cases hc : isSpaceChar c = true
      · constructor
        · intro _ d hd
          rcases List.mem_cons.mp hd with rfl | hd2
          · exact hc
          · exact hall d hd2
        · intro _; simp [hc]
      · constructor
        · intro hcontra
          rw [if_neg hc] at hcontra
          exact absurd hcontra (by simp)
        · intro hx
          exact absurd (hx c (by simp)) hc
    | cons r rs =>
      constructor
      · intro hcontra; exact absurd hcontra (by simp)
      · intro hx
        have : trimEnd cs = [] := ih.mpr fun d hd => hx d (by simp [hd])
        rw [this] at h
        exact absurd h (by simp)

theorem dropWs_idem (l : Str) : dropWs (dropWs l) = dropWs l := by
  induction l with
  | nil => rfl
  | cons c cs ih =>
    by_cases hc : isSpaceChar c = true
    · simp only [dropWs, List.dropWhile_cons, hc, if_true] at *
      exact ih
    · simp [dropWs, List.dropWhile_cons, hc]

theorem trimEnd_dropWs_comm : ∀ m : Str,
    dropWs (trimEnd m) = trimEnd (dropWs m) := by
  intro m
  induction m with
  | nil => rfl
  | cons c cs ih =>
    by_cases hc : isSpaceChar c = true
    · have hr : dropWs (c :: cs) = dropWs cs := by
        simp [dropWs, List.dropWhile_cons, hc]
      cases h : trimEnd cs with
      | nil =>
        have ht0 : trimEnd (c :: cs) = [] := by simp [trimEnd, h, hc]
        rw [ht0, hr, ← ih, h]
      | cons r rs =>
        have ht : trimEnd (c :: cs) = c :: r :: rs := by simp [trimEnd, h]
        rw [ht, hr, ← ih, h]
        simp [dropWs, List.dropWhile_cons, hc]
    · have hr : dropWs (c :: cs) = c :: cs := by
        simp [dropWs, List.dropWhile_cons, hc]
      cases h : trimEnd cs with
      | nil =>
        have ht : trimEnd (c :: cs) = [c] := by simp [trimEnd, h, hc]
        rw [ht, hr]
        simp only [dropWs, List.dropWhile_cons, hc, if_false, Bool.false_eq_true]
        simp [trimEnd, h, hc]
      | cons r rs =>
        have ht : trimEnd (c :: cs) = c :: r :: rs := by simp [trimEnd, h]
        rw [ht, hr]
        simp [trimEnd, h, dropWs, List.dropWhile_cons, hc]

theorem seqStartsWith_all_space (ps cs : Str)
    (hp : ∀ c ∈ ps, isSpaceChar c = false)
    (hc : ∀ c ∈ cs, isSpaceChar c = true) :
    seqStartsWith ps cs = seqStartsWith ps [] := by
  cases ps with
  | nil => cases cs <;> rfl
  | cons p ps' =>
    cases cs with
    | nil => rfl
    | cons c cs' =>
      have hpc : (p = c) = False := by
        simp only [eq_iff_iff, iff_false]
        intro he
        have h1 := hp p (by simp)
        have h2 := hc c (by simp)
        rw [he] at h1
        rw [h1] at h2
        exact absurd h2 (by simp)
      simp [seqStartsWith, hpc]

theorem seqStartsWith_trimEnd : ∀ (m pat : Str),
    (∀ c ∈ pat, isSpaceChar c = false) →
    seqStartsWith pat (trimEnd m) = seqStartsWith pat m := by
  intro m
  induction m with
  | nil => intro pat _; rfl
  | cons c cs ih =>
    intro pat hp
    cases pat with
    | nil => rfl
    | cons p ps =>
      simp only [trimEnd]
      cases h : trimEnd cs with
      | nil =>
        have hall := (trimEnd_eq_nil_iff cs).mp h
        by_cases hc : isSpaceChar c = true
        · have hpc : (p = c) = False := by
            simp only [eq_iff_iff, iff_false]
            intro he
            have h1 := hp p (by simp)
            rw [he, hc] at h1
            exact absurd h1 (by simp)
          simp [hc, seqStartsWith, hpc]
        · have haux := seqStartsWith_all_space ps cs
            (fun d hd => hp d (by simp [hd])) hall
          simp [hc, seqStartsWith, haux]
      | cons r rs =>
        have hps := ih ps (fun d hd => hp d (by simp [hd]))
        rw [h] at hps
        simp [seqStartsWith, hps]

theorem headIs_eq_startsWith (c : Char) (l : Str) :
    headIs c l = seqStartsWith [c] l := by
  cases l with
  | nil => rfl
  | cons x xs =>
    simp only [headIs, seqStartsWith, Bool.and_true]
    by_cases h : x = c
    · simp [h]
    · have h2 : ¬(c = x) := fun hcx => h hcx.symm
      simp [h, h2]

/-- The profile comment rules ignore leading whitespace, so they agree on
a line and on its trimmed form: `parseCode` applies them to the trimmed
line, the spec counts comment lines of the raw input. -/
theorem patCommentTest_trimStr (p : Profile) (l : Str) :
    patCommentTest p (trimStr l) = patCommentTest p l := by
  have key : ∀ pat : Str, (∀ c ∈ pat, isSpaceChar c = false) →
      seqStartsWith pat (dropWs (trimStr l)) =
        seqStartsWith pat (dropWs l) := by
    intro pat hp
    unfold trimStr
    rw [trimEnd_dropWs_comm, dropWs_idem]
    exact seqStartsWith_trimEnd (dropWs l) pat hp
  cases p with
  | python =>
    simp only [patCommentTest, headIs_eq_startsWith]
    rw [key ['#'] (by decide)]
  | javascript =>
    simp only [patCommentTest]
    rw [key (("//").data) (by decide), key (("/*").data) (by decide)]
  | java =>
    simp only [patCommentTest]
    rw [key (("//").data) (by decide), key (("/*").data) (by decide)]
  | cpp =>
    simp only [patCommentTest]
    rw [key (("//").data) (by decide), key (("/*").data) (by decide)]

theorem parseGo_statements_length (p : Profile) :
    ∀ (lines : List Str) (n : Nat) (acc : Analysis),
      (parseGo p lines n acc).statements.length =
        acc.statements.length +
          lines.countP (fun l =>
            !(trimStr l == []) && !(patCommentTest p (trimStr l))) := by
  intro lines
  induction lines with
  | nil => intro n acc; simp [parseGo]
  | cons l ls ih =>
    intro n acc
    simp only [parseGo, List.countP_cons]
    rw [ih]
    unfold parseStep
    simp only []
    by_cases h1 : trimStr l = []
    · simp [h1]
    · by_cases h2 : patCommentTest p (trimStr l) = true
      · simp [h1, h2]
      · have h2' : patCommentTest p (trimStr l) = false :=
          Bool.eq_false_iff.mpr h2
        simp [h1, h2']
        omega

/-- Count, per the spec's words, of the non-blank non-comment lines of the
input: the lines whose trim is nonempty and which the active profile's
comment rule does not match. -/
def specCodeLineCount (language code : String) : Nat :=
  (splitOnChar '\n' code.data).countP fun l =>
    !(trimStr l == []) && !(patCommentTest (profileOf language) l)

/-- C5: for every input text and every profile the classifier is total and
emits exactly one statement per non-blank, non-comment line, so the
statement count equals the number of such lines. -/
theorem c5_statement_count (language code : String) :
    (parseCode language code).statements.length =
      specCodeLineCount language code := by
  unfold parseCode specCodeLineCount
  rw [parseGo_statements_length]
  simp only [List.length_nil, Nat.zero_add]
  apply List.countP_congr
  intro l _
  rw [patCommentTest_trimStr]

theorem parseCode_no_comment_kind (language code : String) :
    ∀ s ∈ (parseCode language code).statements, s.kind ≠ .commentStmt := by
  intro s hs
  obtain ⟨line, ln, il, rfl⟩ := parseCode_statements_mem _ _ _ hs
  exact analyzeLine_kind_ne_comment _ _ _ _

theorem codeCommentRatio_eq_length (stmts : List Statement)
    (h : ∀ s ∈ stmts, s.kind ≠ .commentStmt) :
    calculateCodeCommentRatio stmts = (stmts.length : Rat) := by
  unfold calculateCodeCommentRatio countLinesOfCode
  have hzero : (stmts.filter (fun s => s.kind = SKind.commentStmt)).length = 0 := by
    rw [List.length_eq_zero, List.filter_eq_nil_iff]
    intro a ha
    simpa using h a ha
  have hall : stmts.filter (fun s => s.kind ≠ SKind.commentStmt) = stmts := by
    rw [List.filter_eq_self]
    intro a ha
    simpa using h a ha
  simp [hzero, hall]
  intro a ha
  exact h a ha

theorem bonus_cond_iff (n : Nat) :
    ((decide ((n : Rat) > 3) && decide ((n : Rat) < 10)) = true) ↔
      (3 < n ∧ n < 10) := by
  rw [Bool.and_eq_true, decide_eq_true_iff, decide_eq_true_iff]
  constructor
  · rintro ⟨h1, h2⟩
    exact ⟨by exact_mod_cast h1, by exact_mod_cast h2⟩
  · rintro ⟨h1, h2⟩
    exact ⟨by exact_mod_cast h1, by exact_mod_cast h2⟩

/-- The claim's quality formula, amended on the bonus clause: since a
comment line never becomes a statement, the computed comment count is
always zero and the "ratio" defaults to the plain statement count, so the
bonus applies exactly when the statement count is strictly between 3 and
10. -/
def specAmendedQualityScore (cc nesting n : Nat) : Int :=
  let s1 : Int := 100
  let s2 := if cc > 10 then s1 - ((cc : Int) - 10) * 5 else s1
  let s3 := if nesting > 4 then s2 - ((nesting : Int) - 4) * 10 else s2
  let s4 := if 3 < n ∧ n < 10 then s3 + 10 else s3
  intMax 0 (intMin 100 s4)

/-- C6 (amended): the quality score follows the claim's base, penalties
and clamp, but the 10-point bonus fires exactly when the statement count
lies strictly between 3 and 10 (not the code-to-comment-line ratio of the
input). -/
theorem c6_quality_bonus_is_statement_count (language code : String) :
    (calculateMetrics (parseCode language code)).qualityScore =
      specAmendedQualityScore
        (calculateMetrics (parseCode language code)).cyclomaticComplexity
        (calculateMetrics (parseCode language code)).maxNestingDepth
        (parseCode language code).statements.length := by
  have hnc := parseCode_no_comment_kind language code
  unfold calculateMetrics
  simp only []
  unfold calculateQualityScore specAmendedQualityScore
  rw [codeCommentRatio_eq_length _ hnc]
  have hb := bonus_cond_iff ((parseCode language code).statements.length)
  by_cases hn : 3 < (parseCode language code).statements.length ∧
      (parseCode language code).statements.length < 10
  · simp [hb.mpr hn, hn]
  · have hbf : (decide (((parseCode language code).statements.length : Rat) > 3) &&
        decide (((parseCode language code).statements.length : Rat) < 10)) = false := by
      rw [Bool.eq_false_iff]
      exact fun hcontra => hn (hb.mp hcontra)
    simp [hbf, hn]

/-- The claim's quality formula as stated: the 10-point bonus applies
exactly when the ratio of code lines to comment lines of the INPUT lies
strictly between 3 and 10 (comment lines counted by the active profile's
comment rule over the input's lines). -/
def specClaimQualityScore (language code : String) : Int :=
  let p := profileOf language
  let lines := splitOnChar '\n' code.data
  let codeLines := specCodeLineCount language code
  let commentLines := lines.countP (fun l => patCommentTest p l)
  let cc := (calculateMetrics (parseCode language code)).cyclomaticComplexity
  let nesting := (calculateMetrics (parseCode language code)).maxNestingDepth
  let ratio : Rat := (codeLines : Rat) / (commentLines : Rat)
  let s1 : Int := 100
  let s2 := if cc > 10 then s1 - ((cc : Int) - 10) * 5 else s1
  let s3 := if nesting > 4 then s2 - ((nesting : Int) - 4) * 10 else s2
  let s4 := if ratio > 3 ∧ ratio < 10 then s3 + 10 else s3
  intMax 0 (intMin 100 s4)

/-- C6 (counterexample): two comment lines and four conditionals with
three boolean operators each.  The code-to-comment ratio of the input is
4 / 2 = 2, outside (3, 10), so the claim forbids the bonus and yields
100 − 35 = 65; the source counts zero comment statements, takes the
"ratio" 4, grants the bonus and yields 75. -/
theorem c6_counterexample :
    (calculateMetrics (parseCode "javascript"
        "// a\n// b\nif (a && b && c && d)\nif (a && b && c && d)\nif (a && b && c && d)\nif (a && b && c && d)")).qualityScore
      = 75 ∧
    specClaimQualityScore "javascript"
        "// a\n// b\nif (a && b && c && d)\nif (a && b && c && d)\nif (a && b && c && d)\nif (a && b && c && d)"
      = 65 ∧
    (calculateMetrics (parseCode "javascript"
        "// a\n// b\nif (a && b && c && d)\nif (a && b && c && d)\nif (a && b && c && d)\nif (a && b && c && d)")).qualityScore
      ≠ specClaimQualityScore "javascript"
        "// a\n// b\nif (a && b && c && d)\nif (a && b && c && d)\nif (a && b && c && d)\nif (a && b && c && d)" := by
  have hA : (calculateMetrics (parseCode "javascript"
      "// a\n// b\nif (a && b && c && d)\nif (a && b && c && d)\nif (a && b && c && d)\nif (a && b && c && d)")).qualityScore
      = 75 := by decide
  have hB : specClaimQualityScore "javascript"
      "// a\n// b\nif (a && b && c && d)\nif (a && b && c && d)\nif (a && b && c && d)\nif (a && b && c && d)"
      = 65 := by
    have h1 : specCodeLineCount "javascript"
        "// a\n// b\nif (a && b && c && d)\nif (a && b && c && d)\nif (a && b && c && d)\nif (a && b && c && d)" = 4 := by
      decide
    have h2 : (splitOnChar '\n' ("// a\n// b\nif (a && b && c && d)\nif (a && b && c && d)\nif (a && b && c && d)\nif (a && b && c && d)").data).countP
        (fun l => patCommentTest (profileOf "javascript") l) = 2 := by decide
    have h3 : (calculateMetrics (parseCode "javascript"
        "// a\n// b\nif (a && b && c && d)\nif (a && b && c && d)\nif (a && b && c && d)\nif (a && b && c && d)")).cyclomaticComplexity
        = 17 := by decide
    have h4 : (calculateMetrics (parseCode "javascript"
        "// a\n// b\nif (a && b && c && d)\nif (a && b && c && d)\nif (a && b && c && d)\nif (a && b && c && d)")).maxNestingDepth
        = 0 := by decide
    unfold specClaimQualityScore
    simp only [h1, h2, h3, h4]
    norm_num [intMax, intMin]
  exact ⟨hA, hB, by rw [hA, hB]; decide⟩

theorem analyzeLine_code (p : Profile) (line : Str) (ln il : Nat) :
    (analyzeLine p line ln il).code = line := by
  unfold analyzeLine
  repeat' split
  all_goals simp [genericOf]

theorem createExecutionStep_no_update (s : Statement) (n : Nat)
    (h : s.kind ≠ .assignStmt) :
    ∀ mc ∈ (createExecutionStep s n).memoryChanges,
      mc.action ≠ ("update").data := by
  intro mc hmc
  cases hk : s.kind
  case assignStmt => exact absurd hk h
  case forStmt =>
    simp only [createExecutionStep, hk] at hmc
    cases hv : s.loopVar with
    | none => simp [hv] at hmc
    | some v =>
      by_cases he : v = []
      · simp [hv, he] at hmc
      · simp [hv, he] at hmc
        have ha : mc.action = ("create").data := by rw [hmc]
        rw [ha]
        decide
  all_goals
    simp only [createExecutionStep, hk, List.mem_singleton,
      List.not_mem_nil] at hmc
  all_goals first
    | exact absurd hmc (by simp)
    | (have ha : mc.action = ("create").data := by rw [hmc]
       rw [ha]
       decide)

/-- C10: under the Python profile no classified statement ever has the
assignment kind (the profile defines no assignment rule, and its variable
rule — identifier then `=` — is tried first), so its execution step never
carries an `update` memory event; a line matching the identifier-`=` shape
is always classified as a variable declaration. -/
theorem c10_python_never_assignment (code : String) (n : Nat) (s : Statement)
    (hs : s ∈ (parseCode "python" code).statements) :
    s.kind ≠ .assignStmt ∧
    (∀ mc ∈ (createExecutionStep s n).memoryChanges,
      mc.action ≠ ("update").data) ∧
    ((wordThenEq s.code).isSome = true → s.kind = .varDecl) := by
  obtain ⟨line, ln, il, rfl⟩ := parseCode_statements_mem _ _ _ hs
  have hne : (analyzeLine (profileOf "python") line ln il).kind ≠ .assignStmt := by
    have : profileOf "python" = .python := by decide
    rw [this]
    exact analyzeLine_python_ne_assign line ln il
  refine ⟨hne, createExecutionStep_no_update _ n hne, ?_⟩
  intro hw
  rw [analyzeLine_code] at hw
  have : profileOf "python" = .python := by decide
  rw [this] at *
  exact analyzeLine_python_varDecl line ln il hw

/-- Witness for C10: the second line of `x = 1`, `x = 2` — a reassignment
of an existing variable — is classified as a variable declaration, not an
assignment. -/
theorem c10_python_never_assignment_witness :
    ({ kind := .varDecl, line := 2, indent := 0, code := ("x = 2").data
       name := some (("x").data), vars := [("x").data]
       description := ("Declare/assign variable: x").data } : Statement).kind
        ≠ SKind.assignStmt ∧
    (∀ mc ∈ (createExecutionStep
        ({ kind := .varDecl, line := 2, indent := 0, code := ("x = 2").data
           name := some (("x").data), vars := [("x").data]
           description := ("Declare/assign variable: x").data } : Statement)
        2).memoryChanges, mc.action ≠ ("update").data) ∧
    ((wordThenEq (("x = 2").data)).isSome = true →
      ({ kind := .varDecl, line := 2, indent := 0, code := ("x = 2").data
         name := some (("x").data), vars := [("x").data]
         description := ("Declare/assign variable: x").data } : Statement).kind
        = .varDecl) :=
  c10_python_never_assignment "x = 1\nx = 2" 2
    { kind := .varDecl, line := 2, indent := 0, code := ("x = 2").data
      name := some (("x").data), vars := [("x").data]
      description := ("Declare/assign variable: x").data }
    (by decide)

theorem splitOnChar_chars (sep : Char) : ∀ (m l : Str),
    l ∈ splitOnChar sep m → ∀ c ∈ l, c ∈ m := by
  intro m
  induction m with
  | nil =>
    intro l hl c hc
    simp [splitOnChar] at hl
    rw [hl] at hc
    simp at hc
  | cons x xs ih =>
    intro l hl c hc
    simp only [splitOnChar] at hl
    cases h : splitOnChar sep xs with
    | nil =>
      rw [h] at hl
      simp at hl
      rw [hl] at hc
      simp at hc
    | cons hh tt =>
      rw [h] at hl
      by_cases hx : x = sep
      · simp only [hx, if_true, List.mem_cons] at hl
        rcases hl with hl | hl | hl
        · rw [hl] at hc; simp at hc
        · have : c ∈ xs := ih l (by rw [h, hl]; simp) c hc
          simp [this]
        · have : c ∈ xs := ih l (by rw [h]; simp [hl]) c hc
          simp [this]
      · simp only [hx, if_false, List.mem_cons] at hl
        rcases hl with hl | hl
        · rw [hl] at hc
          rcases List.mem_cons.mp hc with rfl | hc2
          · simp
          · have : c ∈ xs := ih hh (by rw [h]; simp) c hc2
            simp [this]
        · have : c ∈ xs := ih l (by rw [h]; simp [hl]) c hc
          simp [this]

theorem trimStr_eq_nil_of_all_space (l : Str)
    (h : ∀ c ∈ l, isSpaceChar c = true) : trimStr l = [] := by
  unfold trimStr
  have hd : dropWs l = [] := by
    unfold dropWs
    rw [List.dropWhile_eq_nil_iff]
    exact h
  rw [hd]
  rfl

theorem parseGo_all_blank (p : Profile) : ∀ (lines : List Str) (n : Nat)
    (acc : Analysis), (∀ l ∈ lines, trimStr l = []) →
    parseGo p lines n acc = acc := by
  intro lines
  induction lines with
  | nil => intro n acc _; rfl
  | cons l ls ih =>
    intro n acc h
    have hstep : parseStep p n l acc = acc := by
      unfold parseStep
      simp [h l (by simp)]
    simp only [parseGo, hstep]
    exact ih (n + 1) acc (fun x hx => h x (by simp [hx]))

theorem parseCode_whitespace_statements (language code : String)
    (h : ∀ c ∈ code.data, isSpaceChar c = true) :
    (parseCode language code).statements = [] := by
  unfold parseCode
  rw [parseGo_all_blank]
  intro l hl
  exact trimStr_eq_nil_of_all_space l
    (fun c hc => h c (splitOnChar_chars '\n' code.data l hl c hc))

/-- C8 (amended): empty or whitespace-only input yields a valid result
with zero statements, cyclomatic complexity 1, a two-node graph (start
wired straight to the end) with exactly one edge, and the time-complexity
estimate `O(1)` (the source never produces an `N/A` estimate). -/
theorem c8_whitespace_input (code language : String) (rng : Nat → Nat)
    (h : ∀ c ∈ code.data, isSpaceChar c = true) :
    (computeAnalysis code language rng).statements = [] ∧
    (computeAnalysis code language rng).metrics.cyclomaticComplexity = 1 ∧
    createNodes (computeAnalysis code language rng).statements =
      [startNode, endNode 2] ∧
    (createConnections
        (createNodes (computeAnalysis code language rng).statements)).length
      = 1 ∧
    (computeAnalysis code language rng).performance.timeComplexity =
      ("O(1)").data := by
  have hstmts := parseCode_whitespace_statements language code h
  have h1 : (computeAnalysis code language rng).statements = [] := by
    unfold computeAnalysis
    simp only []
    exact hstmts
  have h2 : (computeAnalysis code language rng).metrics.cyclomaticComplexity
      = 1 := by
    unfold computeAnalysis calculateMetrics
    simp only [hstmts]
    rfl
  have h5 : (computeAnalysis code language rng).performance.timeComplexity =
      ("O(1)").data := by
    unfold computeAnalysis analyzePerformance
    simp only [hstmts]
    rfl
  refine ⟨h1, h2, ?_, ?_, h5⟩
  · rw [h1]
    rfl
  · rw [h1]
    rfl

/-- Witness for C8 at a concrete whitespace-only input. -/
theorem c8_whitespace_input_witness :
    (computeAnalysis "  \t\n " "python" (fun _ => 0)).statements = [] ∧
    (computeAnalysis "  \t\n " "python"
        (fun _ => 0)).metrics.cyclomaticComplexity = 1 ∧
    createNodes (computeAnalysis "  \t\n " "python"
        (fun _ => 0)).statements = [startNode, endNode 2] ∧
    (createConnections (createNodes (computeAnalysis "  \t\n " "python"
        (fun _ => 0)).statements)).length = 1 ∧
    (computeAnalysis "  \t\n " "python" (fun _ => 0)).performance.timeComplexity
      = ("O(1)").data :=
  c8_whitespace_input "  \t\n " "python" (fun _ => 0) (by decide)

/-- C8 (counterexample): for the empty input the complexity estimate the
analysis returns is `O(1)`, not the claimed `N/A`. -/
theorem c8_counterexample :
    (computeAnalysis "" "javascript"
        (fun _ => 0)).performance.timeComplexity = ("O(1)").data ∧
    (computeAnalysis "" "javascript"
        (fun _ => 0)).performance.timeComplexity ≠ ("N/A").data := by
  refine ⟨by decide, by decide⟩

theorem createNodeFromStatement_facts (s : Statement) (idx cid : Nat) :
    (adornNode (createNodeFromStatement s idx cid) s.kind).nkind =
        NodeKind.ofStmt s.kind ∧
    (adornNode (createNodeFromStatement s idx cid) s.kind).stmt = some s ∧
    (adornNode (createNodeFromStatement s idx cid) s.kind).id = cid ∧
    ((adornNode (createNodeFromStatement s idx cid) s.kind).shape =
        ("rect").data ∨
      (adornNode (createNodeFromStatement s idx cid) s.kind).shape =
        ("diamond").data) ∧
    (s.kind = SKind.retStmt →
      (adornNode (createNodeFromStatement s idx cid) s.kind).connectsToEnd
        = true) := by
  cases hk : s.kind <;> simp [createNodeFromStatement, adornNode, hk]

theorem stmtNodes_facts : ∀ (ss : List Statement) (cid idx : Nat) (n : FNode),
    n ∈ stmtNodes cid idx ss →
    (∃ k, n.nkind = NodeKind.ofStmt k) ∧ (∃ s, n.stmt = some s) ∧
    (n.shape = ("rect").data ∨ n.shape = ("diamond").data) ∧
    cid ≤ n.id ∧
    (n.nkind = NodeKind.ofStmt SKind.retStmt → n.connectsToEnd = true) := by
  intro ss
  induction ss with
  | nil => intro cid idx n hn; simp [stmtNodes] at hn
  | cons s rest ih =>
    intro cid idx n hn
    rcases List.mem_cons.mp hn with rfl | hn2
    · obtain ⟨f1, f2, f3, f4, f5⟩ := createNodeFromStatement_facts s idx cid
      refine ⟨⟨s.kind, f1⟩, ⟨s, f2⟩, f4, by omega, ?_⟩
      intro hret
      apply f5
      rw [f1] at hret
      exact NodeKind.ofStmt.inj hret
    · obtain ⟨g1, g2, g3, g4, g5⟩ := ih (cid + 1) (idx + 1) n hn2
      exact ⟨g1, g2, g3, by omega, g5⟩

theorem lastId_append_single : ∀ (l : List FNode) (n : FNode),
    lastId (l ++ [n]) = n.id := by
  intro l n
  induction l with
  | nil => rfl
  | cons x xs ih =>
    cases xs with
    | nil => rfl
    | cons y ys => exact ih

theorem lastId_createNodes (stmts : List Statement) :
    lastId (createNodes stmts) = stmts.length + 2 := by
  unfold createNodes
  have h := lastId_append_single (startNode :: stmtNodes 2 0 stmts)
    (endNode (stmts.length + 2))
  simpa [endNode] using h

theorem findTarget_cases (ind endId : Nat) : ∀ l : List FNode,
    findTarget ind endId l = endId ∨
      ∃ n ∈ l, findTarget ind endId l = n.id := by
  intro l
  induction l with
  | nil => left; rfl
  | cons n ns ih =>
    unfold findTarget
    cases hn : n.stmt with
    | some s =>
      by_cases hind : s.indent ≤ ind
      · right
        exact ⟨n, by simp, by simp [hind]⟩
      · simp only [hind, if_false]
        rcases ih with h | ⟨m, hm, he⟩
        · left; exact h
        · right; exact ⟨m, by simp [hm], he⟩
    | none =>
      rcases ih with h | ⟨m, hm, he⟩
      · left; exact h
      · right; exact ⟨m, by simp [hm], he⟩

theorem findLoopBack_cases (ind : Nat) : ∀ (l : List FNode) (b : Nat),
    findLoopBack ind l = some b → ∃ n ∈ l, b = n.id := by
  intro l
  induction l with
  | nil => intro b hb; simp [findLoopBack] at hb
  | cons n ns ih =>
    intro b hb
    unfold findLoopBack at hb
    cases hn : n.stmt with
    | some s =>
      rw [hn] at hb
      by_cases hind : s.indent > ind
      · simp only [hind, if_true] at hb
        cases hr : findLoopBack ind ns with
        | some b2 =>
          rw [hr] at hb
          obtain ⟨m, hm, he⟩ := ih b2 hr
          cases hb
          exact ⟨m, by simp [hm], he⟩
        | none =>
          rw [hr] at hb
          cases hb
          exact ⟨n, by simp, rfl⟩
      · simp [hind] at hb
    | none =>
      rw [hn] at hb
      exact absurd hb (by simp)

theorem connsAux_outgoing (endId : Nat) : ∀ (l : List FNode) (n : FNode),
    n ∈ l.dropLast → n.nkind ≠ NodeKind.endN →
    ∃ c ∈ connsAux endId l, c.fromId = n.id := by
  intro l
  induction l with
  | nil => intro n hn _; simp at hn
  | cons cur rest ih =>
    intro n hn hne
    cases rest with
    | nil => simp at hn
    | cons next rest2 =>
      have hdl : (cur :: next :: rest2).dropLast =
          cur :: (next :: rest2).dropLast := rfl
      rw [hdl] at hn
      rcases List.mem_cons.mp hn with rfl | hn2
      · unfold connsAux
        by_cases h1 : n.nkind = NodeKind.startN
        · exact ⟨{ fromId := n.id, toId := next.id, label := [] },
            by simp [h1], rfl⟩
        · by_cases h2 : n.nkind = NodeKind.ofStmt SKind.ifStmt
          · exact ⟨{ fromId := n.id, toId := next.id, label := ("Yes").data
                     style := some styleYes }, by simp [h1, h2], rfl⟩
          · by_cases h3 : n.nkind = NodeKind.ofStmt SKind.forStmt ∨
                n.nkind = NodeKind.ofStmt SKind.whileStmt
            · exact ⟨{ fromId := n.id, toId := next.id
                       label := ("Continue").data
                       style := some styleContinue },
                by simp [h1, h2, h3], rfl⟩
            · by_cases h4 : n.connectsToEnd = true
              · exact ⟨{ fromId := n.id, toId := endId, label := [] },
                  by simp [h1, h2, h3, h4], rfl⟩
              · have h4' : n.connectsToEnd = false := Bool.eq_false_iff.mpr h4
                exact ⟨{ fromId := n.id, toId := next.id, label := [] },
                  by simp [h1, h2, h3, h4', hne], rfl⟩
      · obtain ⟨c, hc, hcid⟩ := ih n hn2 hne
        refine ⟨c, ?_, hcid⟩
        unfold connsAux
        simp only [List.mem_append]
        right
        exact hc

theorem connsAux_toId_ge (endId : Nat) (hend : 2 ≤ endId) :
    ∀ l : List FNode,
    (∀ n ∈ l.tail, 2 ≤ n.id) →
    (∀ hd, l.head? = some hd → (hd.nkind = NodeKind.startN ∨ 2 ≤ hd.id)) →
    ∀ c ∈ connsAux endId l, 2 ≤ c.toId := by
  intro l
  induction l with
  | nil => intro _ _ c hc; simp [connsAux] at hc
  | cons cur rest ih =>
    intro htail hhead c hc
    cases rest with
    | nil => simp [connsAux] at hc
    | cons next rest2 =>
      have hnext : 2 ≤ next.id := htail next (by simp)
      have hrest2 : ∀ n ∈ rest2, 2 ≤ n.id := fun n hn =>
        htail n (by simp [hn])
      have htarget : 2 ≤ findTarget (nodeIndent cur) endId rest2 := by
        rcases findTarget_cases (nodeIndent cur) endId rest2 with h | ⟨m, hm, he⟩
        · rw [h]; exact hend
        · rw [he]; exact hrest2 m hm
      unfold connsAux at hc
      rw [List.mem_append] at hc
      rcases hc with hc | hc
      · by_cases h1 : cur.nkind = NodeKind.startN
        · simp [h1] at hc
          rw [hc]
          exact hnext
        · by_cases h2 : cur.nkind = NodeKind.ofStmt SKind.ifStmt
          · simp [h1, h2] at hc
            rcases hc with hc | hc <;> rw [hc]
            · exact hnext
            · exact htarget
          · by_cases h3 : cur.nkind = NodeKind.ofStmt SKind.forStmt ∨
                cur.nkind = NodeKind.ofStmt SKind.whileStmt
            · have hcur : 2 ≤ cur.id := by
                rcases hhead cur rfl with hh | hh
                · rcases h3 with h3 | h3 <;> rw [h3] at hh <;> exact absurd hh (by simp)
                · exact hh
              simp only [h1, h2, h3, if_neg, if_pos, if_true] at hc
              rcases hlb : findLoopBack (nodeIndent cur) (next :: rest2) with _ | backId
              · rw [hlb] at hc
                simp at hc
                rcases hc with hc | hc <;> rw [hc]
                · exact hnext
                · exact htarget
              · rw [hlb] at hc
                simp at hc
                rcases hc with hc | hc | hc <;> rw [hc]
                · exact hnext
                · exact htarget
                · exact hcur
            · by_cases h4 : cur.connectsToEnd = true
              · simp [h1, h2, h3, h4] at hc
                rw [hc]
                exact hend
              · have h4' : cur.connectsToEnd = false := Bool.eq_false_iff.mpr h4
                by_cases h5 : cur.nkind = NodeKind.endN
                · simp [h1, h2, h3, h4', h5] at hc
                · simp [h1, h2, h3, h4', h5] at hc
                  rw [hc]
                  exact hnext
      · exact ih (fun n hn => htail n (by simp at hn ⊢; exact Or.inr hn))
          (fun hd hhd => by
            cases hhd
            exact Or.inr hnext) c hc

theorem connsAux_length (endId : Nat) : ∀ l : List FNode,
    (∀ n ∈ l.dropLast, n.nkind ≠ NodeKind.endN) →
    l.length - 1 ≤ (connsAux endId l).length := by
  intro l
  induction l with
  | nil => intro _; simp [connsAux]
  | cons cur rest ih =>
    intro h
    cases rest with
    | nil => simp [connsAux]
    | cons next rest2 =>
      have hcur : cur.nkind ≠ NodeKind.endN := h cur (by
        rw [show (cur :: next :: rest2).dropLast =
          cur :: (next :: rest2).dropLast from rfl]
        simp)
      have hrest : ∀ n ∈ (next :: rest2).dropLast,
          n.nkind ≠ NodeKind.endN := fun n hn => h n (by
        rw [show (cur :: next :: rest2).dropLast =
          cur :: (next :: rest2).dropLast from rfl]
        simp [hn])
      have hih := ih hrest
      unfold connsAux
      rw [List.length_append]
      simp only [List.length_cons] at hih ⊢
      by_cases h1 : cur.nkind = NodeKind.startN
      · rw [if_pos h1]
        simp
        omega
      · rw [if_neg h1]
        by_cases h2 : cur.nkind = NodeKind.ofStmt SKind.ifStmt
        · rw [if_pos h2]
          simp
          omega
        · rw [if_neg h2]
          by_cases h3 : cur.nkind = NodeKind.ofStmt SKind.forStmt ∨
              cur.nkind = NodeKind.ofStmt SKind.whileStmt
          · rw [if_pos h3]
            cases findLoopBack (nodeIndent cur) (next :: rest2) <;>
              simp <;> omega
          · rw [if_neg h3]
            by_cases h4 : cur.connectsToEnd = true
            · rw [if_pos h4]
              simp
              omega
            · rw [if_neg h4, if_pos hcur]
              simp
              omega

theorem createNodes_mem_cases (stmts : List Statement) (n : FNode)
    (hn : n ∈ createNodes stmts) :
    n = startNode ∨ n ∈ stmtNodes 2 0 stmts ∨
      n = endNode (stmts.length + 2) := by
  unfold createNodes at hn
  rcases List.mem_cons.mp hn with rfl | hn2
  · exact Or.inl rfl
  · rcases List.mem_append.mp hn2 with hn3 | hn3
    · exact Or.inr (Or.inl hn3)
    · exact Or.inr (Or.inr (by simpa using hn3))

theorem stmtNodes_countP_start_end (stmts : List Statement) :
    ∀ cid idx,
    (stmtNodes cid idx stmts).countP
        (fun n => n.nkind == NodeKind.startN) = 0 ∧
    (stmtNodes cid idx stmts).countP
        (fun n => n.nkind == NodeKind.endN) = 0 := by
  induction stmts with
  | nil => intro cid idx; simp [stmtNodes]
  | cons s rest ih =>
    intro cid idx
    obtain ⟨f1, _, _, _, _⟩ := createNodeFromStatement_facts s idx cid
    obtain ⟨g1, g2⟩ := ih (cid + 1) (idx + 1)
    simp only [stmtNodes, List.countP_cons, f1, g1, g2]
    simp

/-- C3: for every statement stream the constructed graph has exactly one
start node and one end node, they are the only terminal-shaped (ellipse)
nodes, the start node has in-degree 0, every node except the end node has
at least one outgoing edge, and there are at least as many edges as nodes
minus one. -/
theorem c3_graph_invariants (stmts : List Statement) :
    ((createNodes stmts).countP (fun n => n.nkind == NodeKind.startN) = 1) ∧
    ((createNodes stmts).countP (fun n => n.nkind == NodeKind.endN) = 1) ∧
    (∀ n ∈ createNodes stmts,
      (n.shape = ("ellipse").data ↔
        (n.nkind = NodeKind.startN ∨ n.nkind = NodeKind.endN))) ∧
    (∀ c ∈ createConnections (createNodes stmts),
      ∀ n ∈ createNodes stmts, n.nkind = NodeKind.startN → c.toId ≠ n.id) ∧
    (∀ n ∈ createNodes stmts, n.nkind ≠ NodeKind.endN →
      ∃ c ∈ createConnections (createNodes stmts), c.fromId = n.id) ∧
    ((createNodes stmts).length - 1 ≤
      (createConnections (createNodes stmts)).length) := by
  have hcounts := stmtNodes_countP_start_end stmts 2 0
  have hdropLast : (createNodes stmts).dropLast =
      startNode :: stmtNodes 2 0 stmts := by
    unfold createNodes
    rw [show startNode :: stmtNodes 2 0 stmts ++
        [endNode (stmts.length + 2)] =
      (startNode :: stmtNodes 2 0 stmts) ++
        [endNode (stmts.length + 2)] from rfl]
    exact List.dropLast_concat
  have hlast : lastId (createNodes stmts) = stmts.length + 2 :=
    lastId_createNodes stmts
  refine ⟨?_, ?_, ?_, ?_, ?_, ?_⟩
  · unfold createNodes
    simp [List.countP_cons, List.countP_append, hcounts.1, startNode, endNode]
  · unfold createNodes
    simp [List.countP_cons, List.countP_append, hcounts.2, startNode, endNode]
  · intro n hn
    rcases createNodes_mem_cases stmts n hn with rfl | hsn | rfl
    · simp [startNode]
    · obtain ⟨⟨k, hk⟩, _, hshape, _, _⟩ := stmtNodes_facts stmts 2 0 n hsn
      constructor
      · intro hsh
        rcases hshape with hs2 | hs2 <;> rw [hs2] at hsh <;>
          exact absurd hsh (by decide)
      · intro hcontra
        rcases hcontra with hc | hc <;> rw [hk] at hc <;>
          exact absurd hc (by simp)
    · simp [endNode]
  · intro c hc n hn hstart
    have hid : n.id = 1 := by
      rcases createNodes_mem_cases stmts n hn with rfl | hsn | rfl
      · rfl
      · obtain ⟨⟨k, hk⟩, _, _, _, _⟩ := stmtNodes_facts stmts 2 0 n hsn
        rw [hk] at hstart
        exact absurd hstart (by simp)
      · rw [show (endNode (stmts.length + 2)).nkind = NodeKind.endN
          from rfl] at hstart
        exact absurd hstart (by simp)
    have hge : 2 ≤ c.toId := by
      unfold createConnections at hc
      rw [hlast] at hc
      refine connsAux_toId_ge (stmts.length + 2) (by omega)
        (createNodes stmts) ?_ ?_ c hc
      · intro m hm
        unfold createNodes at hm
        have hm1 : m ∈ stmtNodes 2 0 stmts ++
            [endNode (stmts.length + 2)] := hm
        rcases List.mem_append.mp hm1 with hm2 | hm2
        · obtain ⟨_, _, _, hcid, _⟩ := stmtNodes_facts stmts 2 0 m hm2
          omega
        · have : m = endNode (stmts.length + 2) := by simpa using hm2
          rw [this]
          simp [endNode]
      · intro hd hhd
        unfold createNodes at hhd
        have h9 : some startNode = some hd := hhd
        left
        rw [← Option.some.inj h9]
        rfl
    omega
  · intro n hn hne
    have hmem : n ∈ (createNodes stmts).dropLast := by
      rw [hdropLast]
      rcases createNodes_mem_cases stmts n hn with rfl | hsn | rfl
      · simp
      · simp [hsn]
      · exact absurd rfl hne
    unfold createConnections
    exact connsAux_outgoing (lastId (createNodes stmts))
      (createNodes stmts) n hmem hne
  · unfold createConnections
    apply connsAux_length
    intro n hn
    rw [hdropLast] at hn
    rcases List.mem_cons.mp hn with rfl | hsn
    · simp [startNode]
    · obtain ⟨⟨k, hk⟩, _, _, _, _⟩ := stmtNodes_facts stmts 2 0 n hsn
      rw [hk]
      simp

theorem connsAux_ret_edge (endId : Nat) : ∀ l : List FNode,
    (∀ n ∈ l, n.nkind = NodeKind.ofStmt SKind.retStmt →
      n.connectsToEnd = true) →
    ∀ n ∈ l.dropLast, n.nkind = NodeKind.ofStmt SKind.retStmt →
    ({ fromId := n.id, toId := endId, label := [], style := none } : Conn) ∈
      connsAux endId l := by
  intro l
  induction l with
  | nil => intro _ n hn; simp at hn
  | cons cur rest ih =>
    intro hinv n hn hret
    cases rest with
    | nil => simp at hn
    | cons next rest2 =>
      have hdl : (cur :: next :: rest2).dropLast =
          cur :: (next :: rest2).dropLast := rfl
      rw [hdl] at hn
      unfold connsAux
      rw [List.mem_append]
      rcases List.mem_cons.mp hn with rfl | hn2
      · left
        have h1 : ¬ n.nkind = NodeKind.startN := by
          rw [hret]; exact fun hx => NodeKind.noConfusion hx
        have h2 : ¬ n.nkind = NodeKind.ofStmt SKind.ifStmt := by
          rw [hret]
          intro hx
          exact SKind.noConfusion (NodeKind.ofStmt.inj hx)
        have h3 : ¬ (n.nkind = NodeKind.ofStmt SKind.forStmt ∨
            n.nkind = NodeKind.ofStmt SKind.whileStmt) := by
          rw [hret]
          rintro (hx | hx) <;>
            exact SKind.noConfusion (NodeKind.ofStmt.inj hx)
        have h4 : n.connectsToEnd = true := hinv n (by simp) hret
        rw [if_neg h1, if_neg h2, if_neg h3, if_pos h4]
        simp
      · right
        exact ih (fun m hm => hinv m (by simp [hm])) n hn2 hret

theorem connsAux_from_ret_to_end (endId : Nat) :
    ∀ (l N : List FNode),
    (∀ n ∈ l, n ∈ N) →
    (∀ n ∈ N, n.nkind = NodeKind.ofStmt SKind.retStmt →
      n.connectsToEnd = true) →
    ∀ c ∈ connsAux endId l,
    (∀ m ∈ N, c.fromId = m.id →
      m.nkind = NodeKind.ofStmt SKind.retStmt) →
    c.toId = endId ∨ c.label = ("Loop").data := by
  intro l
  induction l with
  | nil => intro N _ _ c hc; simp [connsAux] at hc
  | cons cur rest ih =>
    intro N hsub hinv c hc hfrom
    cases rest with
    | nil => simp [connsAux] at hc
    | cons next rest2 =>
      have hcurN : cur ∈ N := hsub cur (by simp)
      unfold connsAux at hc
      rw [List.mem_append] at hc
      rcases hc with hc | hc
      · by_cases h1 : cur.nkind = NodeKind.startN
        · rw [if_pos h1] at hc
          simp at hc
          have := hfrom cur hcurN (by rw [hc])
          rw [h1] at this
          exact absurd this (fun hx => NodeKind.noConfusion hx)
        · rw [if_neg h1] at hc
          by_cases h2 : cur.nkind = NodeKind.ofStmt SKind.ifStmt
          · rw [if_pos h2] at hc
            simp at hc
            have hfc : c.fromId = cur.id := by
              rcases hc with hc | hc <;> rw [hc]
            have := hfrom cur hcurN hfc
            rw [h2] at this
            exact absurd (NodeKind.ofStmt.inj this) (fun hx =>
              SKind.noConfusion hx)
          · rw [if_neg h2] at hc
            by_cases h3 : cur.nkind = NodeKind.ofStmt SKind.forStmt ∨
                cur.nkind = NodeKind.ofStmt SKind.whileStmt
            · rw [if_pos h3] at hc
              rw [List.mem_append] at hc
              rcases hc with hc | hc
              · simp at hc
                have hfc : c.fromId = cur.id := by
                  rcases hc with hc | hc <;> rw [hc]
                have := hfrom cur hcurN hfc
                rcases h3 with h3 | h3 <;> rw [h3] at this <;>
                  exact absurd (NodeKind.ofStmt.inj this) (fun hx =>
                    SKind.noConfusion hx)
              · cases hlb : findLoopBack (nodeIndent cur)
                    (next :: rest2) with
                | none => rw [hlb] at hc; simp at hc
                | some backId =>
                  rw [hlb] at hc
                  simp at hc
                  right
                  rw [hc]
            · rw [if_neg h3] at hc
              by_cases h4 : cur.connectsToEnd = true
              · rw [if_pos h4] at hc
                simp at hc
                left
                rw [hc]
              · rw [if_neg h4] at hc
                by_cases h5 : cur.nkind ≠ NodeKind.endN
                · rw [if_pos h5] at hc
                  simp at hc
                  have := hinv cur hcurN (hfrom cur hcurN (by rw [hc]))
                  exact absurd this h4
                · rw [if_neg h5] at hc
                  simp at hc
      · exact ih N (fun m hm => hsub m (by simp [hm])) hinv c hc hfrom

/-- C4 (amended): every return statement's node gets an edge straight to
the end node INSTEAD of — not in addition to — its default sequential
edge: its connection step emits exactly the one unlabeled edge to the end
node, so every outgoing edge of a return node other than a loop back-edge
targets the end node. -/
theorem c4_return_goes_to_end_only (stmts : List Statement) :
    (∀ n ∈ createNodes stmts,
      n.nkind = NodeKind.ofStmt SKind.retStmt →
      ({ fromId := n.id, toId := stmts.length + 2, label := []
         style := none } : Conn) ∈
        createConnections (createNodes stmts)) ∧
    (∀ c ∈ createConnections (createNodes stmts),
      (∀ m ∈ createNodes stmts, c.fromId = m.id →
        m.nkind = NodeKind.ofStmt SKind.retStmt) →
      c.toId = stmts.length + 2 ∨ c.label = ("Loop").data) := by
  have hinv : ∀ n ∈ createNodes stmts,
      n.nkind = NodeKind.ofStmt SKind.retStmt → n.connectsToEnd = true := by
    intro n hn hret
    rcases createNodes_mem_cases stmts n hn with rfl | hsn | rfl
    · exact absurd hret (fun hx => NodeKind.noConfusion hx)
    · exact (stmtNodes_facts stmts 2 0 n hsn).2.2.2.2 hret
    · exact absurd hret (fun hx => NodeKind.noConfusion hx)
  have hlast : lastId (createNodes stmts) = stmts.length + 2 :=
    lastId_createNodes stmts
  constructor
  · intro n hn hret
    have hmem : n ∈ (createNodes stmts).dropLast := by
      unfold createNodes
      rw [show startNode :: stmtNodes 2 0 stmts ++
          [endNode (stmts.length + 2)] =
        (startNode :: stmtNodes 2 0 stmts) ++
          [endNode (stmts.length + 2)] from rfl, List.dropLast_concat]
      rcases createNodes_mem_cases stmts n hn with rfl | hsn | rfl
      · simp
      · simp [hsn]
      · exact absurd hret (fun hx => NodeKind.noConfusion hx)
    unfold createConnections
    rw [hlast]
    exact connsAux_ret_edge (stmts.length + 2) (createNodes stmts)
      hinv n hmem hret
  · intro c hc hfrom
    unfold createConnections at hc
    rw [hlast] at hc
    exact connsAux_from_ret_to_end (stmts.length + 2) (createNodes stmts)
      (createNodes stmts) (fun m hm => hm) hinv c hc hfrom

/-- Witness for C4 at the parse of `return x` followed by `y = 1`: the
return node (id 2) has its straight edge to the end node (id 4). -/
theorem c4_return_goes_to_end_only_witness :
    ({ fromId := 2, toId := 4, label := [], style := none } : Conn) ∈
      createConnections (createNodes
        (parseCode "javascript" "return x\ny = 1").statements) := by
  have h := (c4_return_goes_to_end_only
    (parseCode "javascript" "return x\ny = 1").statements).1
    (adornNode (createNodeFromStatement
      (analyzeLine Profile.javascript (("return x").data) 1 0) 0 2)
      (analyzeLine Profile.javascript (("return x").data) 1 0).kind)
    (by decide) (by decide)
  exact (by decide :
    (parseCode "javascript" "return x\ny = 1").statements.length + 2 = 4) ▸ h

/-- Witness for C3 on the empty statement stream: the start node has an
outgoing edge. -/
theorem c3_graph_invariants_witness :
    ∃ c ∈ createConnections (createNodes ([] : List Statement)),
      c.fromId = startNode.id :=
  (c3_graph_invariants []).2.2.2.2.1 startNode (by decide) (by decide)

/-- C4 (counterexample): for `return x` followed by `y = 1` the nodes are
start (1), return (2), assignment (3), end (4); the return node's only
outgoing edge targets the end node 4 — there is no sequential edge from 2
to its successor 3, refuting "in addition to, not instead of". -/
theorem c4_counterexample :
    ((createNodes (parseCode "javascript" "return x\ny = 1").statements).map
        (fun n => (n.id, n.nkind)) =
      [(1, NodeKind.startN), (2, NodeKind.ofStmt SKind.retStmt),
       (3, NodeKind.ofStmt SKind.assignStmt), (4, NodeKind.endN)]) ∧
    (((createConnections (createNodes
        (parseCode "javascript" "return x\ny = 1").statements)).filter
          (fun c => c.fromId == 2)).map (fun c => c.toId) = [4]) := by
  refine ⟨by decide, by decide⟩
